import Mathlib

/-!
Verification of the in-memory vehicle register (`posledni.py`).

The Python program manipulates heap objects through references:
`Person.__eq__` compares structural data (name, surname, age) while
`_vehicle_count` is mutated on individual objects, and the `Register`
stores references to the caller's objects.  The embedding therefore
models a heap explicitly: `Person` objects live at `Nat` addresses in
`Register.heap`, vehicles and the owners list hold references, and each
Python method becomes a pure function on the whole state.  A method that
can raise (the `list.remove` calls) returns `Option`, with `none`
standing for an uncaught `ValueError`.
-/

/-- The fields read by `Person.__eq__`: name, surname and age. -/
structure PersonData where
  name : String
  surname : String
  age : Int
deriving DecidableEq

/-- A `Person` object: its structural data together with the mutable
`_vehicle_count` attribute. -/
structure PersonObj where
  data : PersonData
  vehicle_count : Int
deriving DecidableEq

/-- `Person.__init__`: a fresh person has `_vehicle_count = 0`. -/
def PersonObj.create (d : PersonData) : PersonObj := ⟨d, 0⟩

/-- `Person.increment_vehicle_count`. -/
def PersonObj.increment_vehicle_count (p : PersonObj) : PersonObj :=
  { p with vehicle_count := p.vehicle_count + 1 }

/-- `Person.decrement_vehicle_count`: decrements only when positive. -/
def PersonObj.decrement_vehicle_count (p : PersonObj) : PersonObj :=
  if p.vehicle_count > 0 then { p with vehicle_count := p.vehicle_count - 1 } else p

/-- `Person.__eq__`: equality of name, surname and age. -/
def PersonData.eqb (a b : PersonData) : Bool :=
  a.name == b.name && a.surname == b.surname && a.age == b.age

/-- A `Vehicle` object: plate, creation date, and a heap reference to its
owner `Person` object. -/
structure Vehicle where
  registration_plate : String
  creation_date : String
  owner : Nat
deriving DecidableEq

/-- `Vehicle.__eq__`: equality by registration plate alone. -/
def Vehicle.eqb (a b : Vehicle) : Bool :=
  a.registration_plate == b.registration_plate

/-- The state of a run: the heap of `Person` objects created so far
(addresses below `nextRef`), and the `Register`'s `vehicles` and
`owners` lists.  `owners` holds references into the heap, mirroring a
Python list of object references. -/
structure Register where
  heap : Nat → PersonObj
  nextRef : Nat
  vehicles : List Vehicle
  owners : List Nat

/-- Structural data of the person referenced by `r`. -/
def Register.pdata (s : Register) (r : Nat) : PersonData := (s.heap r).data

/-- Current `_vehicle_count` of the person referenced by `r`. -/
def Register.vcnt (s : Register) (r : Nat) : Int := (s.heap r).vehicle_count

/-- Python `list.remove(x)` specialised to the match predicate `p`:
removes the first matching element; `none` when nothing matches
(a `ValueError`). -/
def pyRemove (p : α → Bool) : List α → Option (List α)
  | [] => none
  | x :: xs => if p x then some xs else (pyRemove p xs).map (fun ys => x :: ys)

/-- In-place mutation of the first element satisfying `p` (the object a
preceding linear scan found). -/
def updateFirst (p : α → Bool) (f : α → α) : List α → List α
  | [] => []
  | x :: xs => if p x then f x :: xs else x :: updateFirst p f xs

/-- `Register._find_vehicle_by_plate`: linear scan, first match. -/
def Register.find_vehicle_by_plate (s : Register) (plate : String) : Option Vehicle :=
  s.vehicles.find? (fun w => w.registration_plate == plate)

/-- `Register.insert_vehicle`: reject a duplicate plate with code `0`;
otherwise append the vehicle, append its owner to `owners` unless an
equal person is already there, increment the owner object's count, and
return `1`. -/
def Register.insert_vehicle (s : Register) (v : Vehicle) : Int × Register :=
  if s.vehicles.any (fun w => Vehicle.eqb w v) then (0, s)
  else
    let s1 : Register := { s with vehicles := s.vehicles ++ [v] }
    let s2 : Register :=
      if s1.owners.any (fun r => PersonData.eqb (s1.heap r).data (s1.heap v.owner).data)
      then s1
      else { s1 with owners := s1.owners ++ [v.owner] }
    (1, { s2 with
          heap := Function.update s2.heap v.owner
            ((s2.heap v.owner).increment_vehicle_count) })

/-- `Register.update_vehicle_owner`: code `0` when the plate is absent or
the current owner equals `new_owner`; otherwise decrement the old owner
object, remove it from `owners` when its count reached `0` (this
`list.remove` can raise: `none`), reassign the vehicle's owner field,
append `new_owner` to `owners` unless an equal person is present, and
increment `new_owner`. -/
def Register.update_vehicle_owner (s : Register) (plate : String) (new_owner : Nat) :
    Option (Int × Register) :=
  match s.find_vehicle_by_plate plate with
  | none => some (0, s)
  | some vehicle =>
    if PersonData.eqb (s.heap vehicle.owner).data (s.heap new_owner).data then some (0, s)
    else
      let old := vehicle.owner
      let h1 := Function.update s.heap old ((s.heap old).decrement_vehicle_count)
      let afterRemove : Option (List Nat) :=
        if (h1 old).vehicle_count == 0
        then pyRemove (fun r => PersonData.eqb (h1 r).data (h1 old).data) s.owners
        else some s.owners
      afterRemove.map (fun os =>
        let vs := updateFirst (fun w => w.registration_plate == plate)
          (fun w => { w with owner := new_owner }) s.vehicles
        let os2 := if os.any (fun r => PersonData.eqb (h1 r).data (h1 new_owner).data)
          then os
          else os ++ [new_owner]
        (1, { heap := Function.update h1 new_owner ((h1 new_owner).increment_vehicle_count),
              nextRef := s.nextRef, vehicles := vs, owners := os2 }))

/-- `Register.delete_vehicle`: code `0` when the plate is absent;
otherwise remove the vehicle, decrement its owner object, and remove the
owner from `owners` when its count reached `0` (this `list.remove` can
raise: `none`). -/
def Register.delete_vehicle (s : Register) (plate : String) : Option (Int × Register) :=
  match s.find_vehicle_by_plate plate with
  | none => some (0, s)
  | some vehicle =>
    (pyRemove (fun w => Vehicle.eqb w vehicle) s.vehicles).bind (fun vs =>
      let owner := vehicle.owner
      let h1 := Function.update s.heap owner ((s.heap owner).decrement_vehicle_count)
      let afterRemove : Option (List Nat) :=
        if (h1 owner).vehicle_count == 0
        then pyRemove (fun r => PersonData.eqb (h1 r).data (h1 owner).data) s.owners
        else some s.owners
      afterRemove.map (fun os =>
        (1, { heap := h1, nextRef := s.nextRef, vehicles := vs, owners := os })))

/-- `Register.list_vehicles`. -/
def Register.list_vehicles (s : Register) : List Vehicle := s.vehicles

/-- `Register.list_owners`. -/
def Register.list_owners (s : Register) : List Nat := s.owners

/-- `Register.list_vehicle_by_owner`: the argument person is given by its
`__eq__`-relevant data, which is all the comparison reads. -/
def Register.list_vehicle_by_owner (s : Register) (p : PersonData) : List Vehicle :=
  s.vehicles.filter (fun w => PersonData.eqb (s.heap w.owner).data p)

/-- One caller action: constructing a `Person`, or one of the three
mutating `Register` methods (the query methods do not change state). -/
inductive Op where
  | newPerson (d : PersonData)
  | insert (plate date : String) (ownerRef : Nat)
  | update (plate : String) (newOwnerRef : Nat)
  | delete (plate : String)

/-- Run one action.  `none` means either an argument no Python caller
could supply (a reference to a never-created person) or an uncaught
exception inside the call. -/
def runOp (s : Register) : Op → Option Register
  | .newPerson d =>
      some { s with heap := Function.update s.heap s.nextRef (PersonObj.create d),
                    nextRef := s.nextRef + 1 }
  | .insert plate date r =>
      if r < s.nextRef then some (s.insert_vehicle ⟨plate, date, r⟩).2 else none
  | .update plate r =>
      if r < s.nextRef then (s.update_vehicle_owner plate r).map (fun q => q.2) else none
  | .delete plate => (s.delete_vehicle plate).map (fun q => q.2)

/-- `Register.__init__` with no `Person` created yet. -/
def initState : Register :=
  { heap := fun _ => PersonObj.create ⟨"", "", 0⟩, nextRef := 0, vehicles := [], owners := [] }

/-- Run a sequence of actions from a state. -/
def runOps (s : Register) : List Op → Option Register
  | [] => some s
  | op :: ops => (runOp s op).bind (fun s2 => runOps s2 ops)

/-- States reachable from an empty register by completed calls. -/
def Reachable (s : Register) : Prop := ∃ ops, runOps initState ops = some s

/-- The state a trace reaches (`initState` when the trace gets stuck). -/
def stateOf (ops : List Op) : Register := (runOps initState ops).getD initState

/-- `r` is canonical for its person data in state `s`: every reference in
use (in `owners`, or as some vehicle's owner) carrying the same data is
`r` itself.  This is the discipline of reusing one `Person` object per
person, which the repository's own test code follows. -/
def CanonArg (s : Register) (r : Nat) : Prop :=
  (∀ x ∈ s.owners, (s.heap x).data = (s.heap r).data → x = r) ∧
  (∀ w ∈ s.vehicles, (s.heap w.owner).data = (s.heap r).data → w.owner = r)

instance (s : Register) (r : Nat) : Decidable (CanonArg s r) := by
  unfold CanonArg; infer_instance

/-- Reachability by calls in which every person passed as an owner is the
canonical object for its data. -/
inductive CReach : Register → Prop where
  | start : CReach initState
  | newPerson (s s2 : Register) (d : PersonData) : CReach s →
      runOp s (.newPerson d) = some s2 → CReach s2
  | insertV (s s2 : Register) (pl dt : String) (r : Nat) : CReach s → CanonArg s r →
      runOp s (.insert pl dt r) = some s2 → CReach s2
  | updateV (s s2 : Register) (pl : String) (r : Nat) : CReach s → CanonArg s r →
      runOp s (.update pl r) = some s2 → CReach s2
  | deleteV (s s2 : Register) (pl : String) : CReach s →
      runOp s (.delete pl) = some s2 → CReach s2

/-- The trace of the repository's own test code (first half). -/
def demoTrace : List Op :=
  [.newPerson ⟨"John", "Doe", 20⟩, .newPerson ⟨"Alice", "Doe", 22⟩,
   .insert "abc0" "20221122" 0, .insert "abc1" "20221123" 1]

example : runOps initState demoTrace = some (stateOf demoTrace) := rfl

example : (stateOf demoTrace).owners = [0, 1] := by decide

example : (stateOf demoTrace).vcnt 0 = 1 ∧ (stateOf demoTrace).vcnt 1 = 1 := by decide

example :
    ((stateOf demoTrace).insert_vehicle ⟨"abc0", "20221122", 0⟩).1 = 0 := by decide

/-- The full trace of the repository's test code: inserts (with one
rejected duplicate), transfers (one rejected no-op), deletions. -/
def repoTestTrace : List Op :=
  [.newPerson ⟨"John", "Doe", 20⟩, .newPerson ⟨"Alice", "Doe", 22⟩,
   .insert "abc0" "20221122" 0, .insert "abc1" "20221123" 0,
   .insert "abc0" "20221122" 0, .insert "xyz" "20221124" 1,
   .update "abc1" 0, .update "not in register" 0, .update "abc1" 1, .update "abc0" 1,
   .delete "not in register", .delete "abc0", .delete "abc1", .delete "xyz"]

example : runOps initState repoTestTrace = some (stateOf repoTestTrace) := rfl

example : (stateOf repoTestTrace).list_vehicles = [] ∧
    (stateOf repoTestTrace).list_owners = [] := by decide

example :
    (stateOf (List.take 6 repoTestTrace)).list_owners = [0, 1] ∧
    (stateOf (List.take 6 repoTestTrace)).vcnt 0 = 2 ∧
    (stateOf (List.take 6 repoTestTrace)).vcnt 1 = 1 ∧
    (stateOf (List.take 6 repoTestTrace)).list_vehicles.map Vehicle.registration_plate =
      ["abc0", "abc1", "xyz"] := by decide

example :
    (stateOf (List.take 9 repoTestTrace)).list_owners = [0, 1] ∧
    (stateOf (List.take 9 repoTestTrace)).vcnt 0 = 1 ∧
    (stateOf (List.take 9 repoTestTrace)).vcnt 1 = 2 := by decide

example :
    (stateOf (List.take 10 repoTestTrace)).list_owners = [1] ∧
    (stateOf (List.take 10 repoTestTrace)).vcnt 1 = 3 ∧
    (stateOf (List.take 10 repoTestTrace)).list_vehicle_by_owner ⟨"Alice", "Doe", 22⟩
      = (stateOf (List.take 10 repoTestTrace)).list_vehicles := by decide

/-- Spec invariant 2: `owners` holds exactly the distinct persons (by
`Person.__eq__`) owning at least one vehicle — no omissions, no extras,
no duplicates. -/
def OwnersExact (s : Register) : Prop :=
  (∀ w ∈ s.vehicles, ∃ r ∈ s.owners, (s.heap r).data = (s.heap w.owner).data) ∧
  (∀ r ∈ s.owners, ∃ w ∈ s.vehicles, (s.heap w.owner).data = (s.heap r).data) ∧
  (s.owners.map (fun r => (s.heap r).data)).Nodup

instance (s : Register) : Decidable (OwnersExact s) := by
  unfold OwnersExact; infer_instance

/-- Spec invariant 3: every person in `owners` has `vehicle_count` equal
to the number of vehicles whose owner equals it (by `Person.__eq__`). -/
def CountsOk (s : Register) : Prop :=
  ∀ r ∈ s.owners, s.vcnt r =
    ((s.vehicles.filter (fun w => PersonData.eqb (s.heap w.owner).data (s.heap r).data)).length : Int)

instance (s : Register) : Decidable (CountsOk s) := by
  unfold CountsOk Register.vcnt; infer_instance

/-- Two distinct `Person` objects with equal data (`"a" "a" 1` at heap
addresses 0 and 1) each own a vehicle; transferring the second vehicle
away drops the shared count and evicts the wrong object from `owners`. -/
def aliasTrace1 : List Op :=
  [.newPerson ⟨"a", "a", 1⟩, .newPerson ⟨"a", "a", 1⟩, .newPerson ⟨"b", "b", 2⟩,
   .insert "v1" "d1" 0, .insert "v2" "d2" 1, .update "v2" 2]

example : runOps initState aliasTrace1 = some (stateOf aliasTrace1) := rfl

example : ¬ OwnersExact (stateOf aliasTrace1) := by decide

/-- Two equal-data `Person` objects each own one vehicle: the object in
`owners` counts 1 while two vehicles have an equal owner. -/
def aliasTrace2 : List Op :=
  [.newPerson ⟨"a", "a", 1⟩, .newPerson ⟨"a", "a", 1⟩,
   .insert "v1" "d1" 0, .insert "v2" "d2" 1]

example : ¬ CountsOk (stateOf aliasTrace2) := by decide

/-- After `aliasTrace1` plus one more person, vehicle `v1` is present but
its owner's data is no longer in `owners`: transferring `v1` raises
`ValueError` inside `owners.remove`. -/
def aliasTrace3 : List Op :=
  [.newPerson ⟨"a", "a", 1⟩, .newPerson ⟨"a", "a", 1⟩, .newPerson ⟨"b", "b", 2⟩,
   .newPerson ⟨"c", "c", 3⟩, .insert "v1" "d1" 0, .insert "v2" "d2" 1, .update "v2" 2]

example : runOps initState aliasTrace3 = some (stateOf aliasTrace3) := rfl

example : (stateOf aliasTrace3).update_vehicle_owner "v1" 3 = none := rfl

/-- Deleting the first of two vehicles owned by equal-data objects evicts
the shared person from `owners`; deleting the second then raises inside
`owners.remove`, and meanwhile `v2` is owned by a person absent from
`owners`. -/
def aliasTrace7 : List Op :=
  [.newPerson ⟨"a", "a", 1⟩, .newPerson ⟨"a", "a", 1⟩,
   .insert "v1" "d1" 0, .insert "v2" "d2" 1, .delete "v1"]

example : runOps initState aliasTrace7 = some (stateOf aliasTrace7) := rfl

example : (stateOf aliasTrace7).delete_vehicle "v2" = none := rfl

example : (stateOf aliasTrace7).list_owners = [] ∧
    (stateOf aliasTrace7).list_vehicle_by_owner ⟨"a", "a", 1⟩ ≠ [] := by decide

theorem PersonData.eqb_iff {a b : PersonData} : PersonData.eqb a b = true ↔ a = b := by
  cases a; cases b
  simp [PersonData.eqb, PersonData.mk.injEq, Bool.and_eq_true, beq_iff_eq, and_assoc]

theorem PersonData.eqb_self (a : PersonData) : PersonData.eqb a a = true :=
  PersonData.eqb_iff.mpr rfl

theorem Vehicle.eqb_plate_iff {a b : Vehicle} :
    Vehicle.eqb a b = true ↔ a.registration_plate = b.registration_plate := by
  simp [Vehicle.eqb, beq_iff_eq]

theorem pyRemove_append {p : α → Bool} {l1 : List α} (a : α) (l2 : List α)
    (h1 : ∀ x ∈ l1, p x = false) (h2 : p a = true) :
    pyRemove p (l1 ++ a :: l2) = some (l1 ++ l2) := by
  induction l1 with
  | nil => simp [pyRemove, h2]
  | cons x xs ih =>
    have hx : p x = false := h1 x (by simp)
    have ih2 := ih (fun y hy => h1 y (by simp [hy]))
    simp [pyRemove, hx, ih2]

theorem pyRemove_some_decomp {p : α → Bool} {l l3 : List α} (h : pyRemove p l = some l3) :
    ∃ l1 a l2, l = l1 ++ a :: l2 ∧ l3 = l1 ++ l2 ∧ p a = true ∧ ∀ x ∈ l1, p x = false := by
  induction l generalizing l3 with
  | nil => simp [pyRemove] at h
  | cons x xs ih =>
    by_cases hx : p x
    · refine ⟨[], x, xs, by simp, ?_, hx, by simp⟩
      simp only [pyRemove, hx, if_true, Option.some.injEq] at h
      simp [h]
    · have hx2 : p x = false := by simpa using hx
      simp only [pyRemove, hx2, Bool.false_eq_true, if_false, Option.map_eq_some'] at h
      obtain ⟨ys, hys, rfl⟩ := h
      obtain ⟨l1, a, l2, rfl, rfl, hpa, hl1⟩ := ih hys
      refine ⟨x :: l1, a, l2, by simp, by simp, hpa, ?_⟩
      intro y hy
      rcases List.mem_cons.mp hy with rfl | hy2
      · exact hx2
      · exact hl1 y hy2

theorem pyRemove_unique [DecidableEq α] {p : α → Bool} {l : List α} {a : α}
    (hn : l.Nodup) (ha : a ∈ l) (hu : ∀ x ∈ l, (p x = true ↔ x = a)) :
    pyRemove p l = some (l.erase a) := by
  obtain ⟨l1, l2, rfl⟩ := List.append_of_mem ha
  have ha1 : a ∉ l1 := by
    intro hmem
    exact (List.nodup_append.mp hn).2.2 hmem (by simp)
  have h1 : ∀ x ∈ l1, p x = false := by
    intro x hx
    cases hpx : p x with
    | false => rfl
    | true =>
      exact absurd ((hu x (by simp [hx])).mp hpx ▸ hx) ha1
  rw [pyRemove_append a l2 h1 ((hu a (by simp)).mpr rfl),
    List.erase_append_right _ ha1, List.erase_cons_head]

theorem updateFirst_append {p : α → Bool} {f : α → α} {l1 : List α} (a : α) (l2 : List α)
    (h1 : ∀ x ∈ l1, p x = false) (h2 : p a = true) :
    updateFirst p f (l1 ++ a :: l2) = l1 ++ f a :: l2 := by
  induction l1 with
  | nil => simp [updateFirst, h2]
  | cons x xs ih =>
    have hx : p x = false := h1 x (by simp)
    have ih2 := ih (fun y hy => h1 y (by simp [hy]))
    simp [updateFirst, hx, ih2]

theorem map_updateFirst {p : α → Bool} {f : α → α} {g : α → β}
    (hg : ∀ x, g (f x) = g x) (l : List α) :
    (updateFirst p f l).map g = l.map g := by
  induction l with
  | nil => rfl
  | cons x xs ih =>
    by_cases hx : p x
    · simp [updateFirst, hx, hg]
    · simp only [updateFirst, hx, Bool.false_eq_true, if_false] at *
      simp [ih]

theorem find?_decomp {p : α → Bool} {l : List α} {a : α} (h : l.find? p = some a) :
    ∃ l1 l2, l = l1 ++ a :: l2 ∧ (∀ x ∈ l1, p x = false) ∧ p a = true := by
  induction l with
  | nil => simp [List.find?] at h
  | cons x xs ih =>
    by_cases hx : p x
    · rw [List.find?_cons_of_pos _ hx] at h
      cases h
      exact ⟨[], xs, by simp, by simp, hx⟩
    · rw [List.find?_cons_of_neg _ hx] at h
      obtain ⟨l1, l2, rfl, h1, h2⟩ := ih h
      refine ⟨x :: l1, l2, by simp, ?_, h2⟩
      intro y hy
      rcases List.mem_cons.mp hy with rfl | hy2
      · simpa using hx
      · exact h1 y hy2

theorem find?_of_decomp {p : α → Bool} (l1 : List α) (a : α) (l2 : List α)
    (h1 : ∀ x ∈ l1, p x = false) (h2 : p a = true) :
    (l1 ++ a :: l2).find? p = some a := by
  induction l1 with
  | nil =>
    simp only [List.nil_append]
    exact List.find?_cons_of_pos _ h2
  | cons x xs ih =>
    have hx : p x = false := h1 x (by simp)
    rw [List.cons_append, List.find?_cons_of_neg _ (by simp [hx])]
    exact ih (fun y hy => h1 y (by simp [hy]))

theorem data_update_inc (h : Nat → PersonObj) (r x : Nat) :
    ((Function.update h r ((h r).increment_vehicle_count)) x).data = (h x).data := by
  rcases eq_or_ne x r with rfl | hx
  · rw [Function.update_same]; rfl
  · rw [Function.update_noteq hx]

theorem data_update_dec (h : Nat → PersonObj) (r x : Nat) :
    ((Function.update h r ((h r).decrement_vehicle_count)) x).data = (h x).data := by
  rcases eq_or_ne x r with rfl | hx
  · rw [Function.update_same]
    unfold PersonObj.decrement_vehicle_count
    split <;> rfl
  · rw [Function.update_noteq hx]

theorem cnt_inc_same (h : Nat → PersonObj) (r : Nat) :
    ((Function.update h r ((h r).increment_vehicle_count)) r).vehicle_count =
      (h r).vehicle_count + 1 := by
  rw [Function.update_same]; rfl

theorem cnt_dec_same (h : Nat → PersonObj) (r : Nat) (hpos : 0 < (h r).vehicle_count) :
    ((Function.update h r ((h r).decrement_vehicle_count)) r).vehicle_count =
      (h r).vehicle_count - 1 := by
  rw [Function.update_same]
  unfold PersonObj.decrement_vehicle_count
  rw [if_pos hpos]

theorem cnt_update_noteq (h : Nat → PersonObj) (r x : Nat) (q : PersonObj) (hx : x ≠ r) :
    ((Function.update h r q) x).vehicle_count = (h x).vehicle_count := by
  rw [Function.update_noteq hx]

/-- Number of vehicles whose owner field references the object `r`. -/
def refCount (s : Register) (r : Nat) : Nat :=
  (s.vehicles.filter (fun w => w.owner == r)).length

/-- The inductive invariant maintained by canonical use of the register:
references in play are live, plates are unique, `owners` is exactly the
set of references owned by at least one vehicle (without duplicates),
distinct references in play never carry equal person data, and every
object's count equals the number of vehicles referencing it. -/
structure Good (s : Register) : Prop where
  validV : ∀ w ∈ s.vehicles, w.owner < s.nextRef
  validO : ∀ r ∈ s.owners, r < s.nextRef
  plates : (s.vehicles.map (fun w => w.registration_plate)).Nodup
  cover : ∀ w ∈ s.vehicles, w.owner ∈ s.owners
  exact_mem : ∀ r ∈ s.owners, ∃ w ∈ s.vehicles, w.owner = r
  onodup : s.owners.Nodup
  canonO : ∀ r ∈ s.owners, ∀ x ∈ s.owners, (s.heap x).data = (s.heap r).data → x = r
  canonV : ∀ w ∈ s.vehicles, ∀ r ∈ s.owners, (s.heap w.owner).data = (s.heap r).data → w.owner = r
  counts : ∀ r, (s.heap r).vehicle_count = (refCount s r : Int)

theorem good_init : Good initState := by
  constructor <;> simp [initState, refCount, PersonObj.create]

theorem good_step_new (s s2 : Register) (d : PersonData) (hg : Good s)
    (h : runOp s (.newPerson d) = some s2) : Good s2 := by
  have h2 : s2 = { s with heap := Function.update s.heap s.nextRef (PersonObj.create d),
                          nextRef := s.nextRef + 1 } := by
    simpa [runOp, eq_comm] using h
  subst h2
  have hdV : ∀ w ∈ s.vehicles,
      ((Function.update s.heap s.nextRef (PersonObj.create d)) w.owner).data =
        (s.heap w.owner).data := by
    intro w hw
    rw [Function.update_noteq (Nat.ne_of_lt (hg.validV w hw))]
  have hdO : ∀ r ∈ s.owners,
      ((Function.update s.heap s.nextRef (PersonObj.create d)) r).data =
        (s.heap r).data := by
    intro r hr
    rw [Function.update_noteq (Nat.ne_of_lt (hg.validO r hr))]
  constructor
  · exact fun w hw => Nat.lt_succ_of_lt (hg.validV w hw)
  · exact fun r hr => Nat.lt_succ_of_lt (hg.validO r hr)
  · exact hg.plates
  · exact hg.cover
  · exact hg.exact_mem
  · exact hg.onodup
  · intro r hr x hx hd
    rw [hdO x hx, hdO r hr] at hd
    exact hg.canonO r hr x hx hd
  · intro w hw r hr hd
    rw [hdV w hw, hdO r hr] at hd
    exact hg.canonV w hw r hr hd
  · intro r
    show ((Function.update s.heap s.nextRef (PersonObj.create d)) r).vehicle_count =
      ((s.vehicles.filter (fun w => w.owner == r)).length : Int)
    rcases eq_or_ne r s.nextRef with rfl | hne
    · rw [Function.update_same]
      have hnil : s.vehicles.filter (fun w => w.owner == s.nextRef) = [] := by
        rw [List.filter_eq_nil_iff]
        intro w hw
        simp only [beq_iff_eq]
        exact Nat.ne_of_lt (hg.validV w hw)
      simp [PersonObj.create, hnil]
    · rw [Function.update_noteq hne]
      exact hg.counts r

theorem insert_ok (s : Register) (v : Vehicle)
    (hfresh : ∀ w ∈ s.vehicles, w.registration_plate ≠ v.registration_plate) :
    s.insert_vehicle v =
      (1, { heap := Function.update s.heap v.owner ((s.heap v.owner).increment_vehicle_count),
            nextRef := s.nextRef,
            vehicles := s.vehicles ++ [v],
            owners := if ∃ r ∈ s.owners, (s.heap r).data = (s.heap v.owner).data
                      then s.owners else s.owners ++ [v.owner] }) := by
  have hany : (s.vehicles.any (fun w => Vehicle.eqb w v)) = false := by
    cases hb : s.vehicles.any (fun w => Vehicle.eqb w v) with
    | false => rfl
    | true =>
      obtain ⟨w, hw, hwe⟩ := List.any_eq_true.mp hb
      exact absurd (Vehicle.eqb_plate_iff.mp hwe) (hfresh w hw)
  by_cases hmem : ∃ r ∈ s.owners, (s.heap r).data = (s.heap v.owner).data
  · have hany2 : (s.owners.any (fun r => PersonData.eqb (s.heap r).data (s.heap v.owner).data))
        = true := by
      rw [List.any_eq_true]
      obtain ⟨r, hr, hd⟩ := hmem
      exact ⟨r, hr, PersonData.eqb_iff.mpr hd⟩
    simp only [Register.insert_vehicle, hany, Bool.false_eq_true, if_false, hany2, if_true,
      if_pos hmem]
  · have hany2 : (s.owners.any (fun r => PersonData.eqb (s.heap r).data (s.heap v.owner).data))
        = false := by
      cases hb : s.owners.any (fun r => PersonData.eqb (s.heap r).data (s.heap v.owner).data) with
      | false => rfl
      | true =>
        obtain ⟨r, hr, hd⟩ := List.any_eq_true.mp hb
        exact absurd ⟨r, hr, PersonData.eqb_iff.mp hd⟩ hmem
    simp only [Register.insert_vehicle, hany, Bool.false_eq_true, if_false, hany2, if_neg hmem]

theorem counts_insert (s : Register) (v : Vehicle) (hg : Good s) (x : Nat) :
    ((Function.update s.heap v.owner ((s.heap v.owner).increment_vehicle_count)) x).vehicle_count
      = (((s.vehicles ++ [v]).filter (fun w => w.owner == x)).length : Int) := by
  rw [List.filter_append]
  by_cases heq : x = v.owner
  · subst heq
    rw [cnt_inc_same]
    have h1 : [v].filter (fun w => w.owner == v.owner) = [v] := by simp
    rw [h1, List.length_append, List.length_singleton]
    have h0 := hg.counts v.owner
    simp only [refCount] at h0
    rw [h0]
    push_cast
    ring
  · rw [cnt_update_noteq _ _ _ _ heq]
    have hb : (v.owner == x) = false := by
      simp only [beq_eq_false_iff_ne, ne_eq]
      exact fun hvx => heq hvx.symm
    have h1 : [v].filter (fun w => w.owner == x) = [] := by
      simp [List.filter, hb]
    rw [h1, List.append_nil]
    exact hg.counts x

theorem good_insert_fresh (s : Register) (v : Vehicle) (hg : Good s)
    (hc : CanonArg s v.owner) (hvr : v.owner < s.nextRef)
    (hfresh : ∀ w ∈ s.vehicles, w.registration_plate ≠ v.registration_plate) :
    Good { heap := Function.update s.heap v.owner ((s.heap v.owner).increment_vehicle_count),
           nextRef := s.nextRef,
           vehicles := s.vehicles ++ [v],
           owners := if ∃ x ∈ s.owners, (s.heap x).data = (s.heap v.owner).data
                     then s.owners else s.owners ++ [v.owner] } := by
  have hdata : ∀ x,
      ((Function.update s.heap v.owner ((s.heap v.owner).increment_vehicle_count)) x).data
        = (s.heap x).data := data_update_inc s.heap v.owner
  have hplates : ((s.vehicles ++ [v]).map (fun w => w.registration_plate)).Nodup := by
    rw [List.map_append]
    refine List.nodup_append.mpr ⟨hg.plates, by simp, ?_⟩
    intro a ha hb
    simp only [List.map_cons, List.map_nil, List.mem_singleton] at hb
    obtain ⟨w, hw, hwp⟩ := List.mem_map.mp ha
    exact hfresh w hw (by rw [hwp, hb])
  by_cases hmem : ∃ x ∈ s.owners, (s.heap x).data = (s.heap v.owner).data
  · have hvo : v.owner ∈ s.owners := by
      obtain ⟨x, hx, hd⟩ := hmem
      exact hc.1 x hx hd ▸ hx
    rw [if_pos hmem]
    constructor
    · intro w hw
      rcases List.mem_append.mp hw with hw2 | hw2
      · exact hg.validV w hw2
      · rw [List.mem_singleton.mp hw2]; exact hvr
    · exact hg.validO
    · exact hplates
    · intro w hw
      rcases List.mem_append.mp hw with hw2 | hw2
      · exact hg.cover w hw2
      · rw [List.mem_singleton.mp hw2]; exact hvo
    · intro x hx
      obtain ⟨w, hw, hwo⟩ := hg.exact_mem x hx
      exact ⟨w, List.mem_append_left _ hw, hwo⟩
    · exact hg.onodup
    · intro x hx y hy hd
      rw [hdata, hdata] at hd
      exact hg.canonO x hx y hy hd
    · intro w hw x hx hd
      rw [hdata, hdata] at hd
      rcases List.mem_append.mp hw with hw2 | hw2
      · exact hg.canonV w hw2 x hx hd
      · rw [List.mem_singleton.mp hw2]
        rw [List.mem_singleton.mp hw2] at hd
        exact (hc.1 x hx hd.symm).symm
    · exact counts_insert s v hg
  · have hvo : v.owner ∉ s.owners := fun hmem2 => hmem ⟨v.owner, hmem2, rfl⟩
    rw [if_neg hmem]
    constructor
    · intro w hw
      rcases List.mem_append.mp hw with hw2 | hw2
      · exact hg.validV w hw2
      · rw [List.mem_singleton.mp hw2]; exact hvr
    · intro x hx
      rcases List.mem_append.mp hx with hx2 | hx2
      · exact hg.validO x hx2
      · rw [List.mem_singleton.mp hx2]; exact hvr
    · exact hplates
    · intro w hw
      rcases List.mem_append.mp hw with hw2 | hw2
      · exact List.mem_append_left _ (hg.cover w hw2)
      · rw [List.mem_singleton.mp hw2]
        exact List.mem_append_right _ (by simp)
    · intro x hx
      rcases List.mem_append.mp hx with hx2 | hx2
      · obtain ⟨w, hw, hwo⟩ := hg.exact_mem x hx2
        exact ⟨w, List.mem_append_left _ hw, hwo⟩
      · exact ⟨v, List.mem_append_right _ (by simp), (List.mem_singleton.mp hx2).symm⟩
    · refine List.nodup_append.mpr ⟨hg.onodup, by simp, ?_⟩
      intro a ha hb
      rw [List.mem_singleton.mp hb] at ha
      exact hvo ha
    · intro x hx y hy hd
      rw [hdata, hdata] at hd
      rcases List.mem_append.mp hx with hx2 | hx2 <;>
        rcases List.mem_append.mp hy with hy2 | hy2
      · exact hg.canonO x hx2 y hy2 hd
      · rw [List.mem_singleton.mp hy2] at hd ⊢
        exact absurd ⟨x, hx2, hd.symm⟩ hmem
      · rw [List.mem_singleton.mp hx2] at hd ⊢
        exact absurd ⟨y, hy2, hd⟩ hmem
      · rw [List.mem_singleton.mp hx2, List.mem_singleton.mp hy2]
    · intro w hw x hx hd
      rw [hdata, hdata] at hd
      rcases List.mem_append.mp hw with hw2 | hw2 <;>
        rcases List.mem_append.mp hx with hx2 | hx2
      · exact hg.canonV w hw2 x hx2 hd
      · rw [List.mem_singleton.mp hx2] at hd ⊢
        exact hc.2 w hw2 hd
      · rw [List.mem_singleton.mp hw2] at hd ⊢
        exact absurd ⟨x, hx2, hd.symm⟩ hmem
      · rw [List.mem_singleton.mp hw2, List.mem_singleton.mp hx2]
    · exact counts_insert s v hg

theorem good_step_insert (s s2 : Register) (pl dt : String) (r : Nat) (hg : Good s)
    (hc : CanonArg s r) (h : runOp s (.insert pl dt r) = some s2) : Good s2 := by
  simp only [runOp] at h
  by_cases hr : r < s.nextRef
  · rw [if_pos hr] at h
    have h2 : (s.insert_vehicle ⟨pl, dt, r⟩).2 = s2 := Option.some.inj h
    subst h2
    by_cases hdup : (s.vehicles.any (fun w => Vehicle.eqb w ⟨pl, dt, r⟩)) = true
    · have hres : s.insert_vehicle ⟨pl, dt, r⟩ = (0, s) := by
        simp only [Register.insert_vehicle, hdup, if_true]
      rw [hres]
      exact hg
    · have hfresh : ∀ w ∈ s.vehicles,
          w.registration_plate ≠ (Vehicle.mk pl dt r).registration_plate := by
        intro w hw heq
        exact hdup (List.any_eq_true.mpr ⟨w, hw, Vehicle.eqb_plate_iff.mpr heq⟩)
      rw [insert_ok s _ hfresh]
      exact good_insert_fresh s _ hg hc hr hfresh
  · rw [if_neg hr] at h
    cases h

theorem update_ok (s : Register) (pl : String) (nw : Nat) (l1 l2 : List Vehicle) (v : Vehicle)
    (hg : Good s) (hcanon : CanonArg s nw)
    (hsplit : s.vehicles = l1 ++ v :: l2)
    (hl1 : ∀ w ∈ l1, (w.registration_plate == pl) = false)
    (hv : (v.registration_plate == pl) = true)
    (hne : (s.heap v.owner).data ≠ (s.heap nw).data) :
    s.update_vehicle_owner pl nw = some (1,
      { heap := Function.update
          (Function.update s.heap v.owner ((s.heap v.owner).decrement_vehicle_count)) nw
          (((Function.update s.heap v.owner
              ((s.heap v.owner).decrement_vehicle_count)) nw).increment_vehicle_count),
        nextRef := s.nextRef,
        vehicles := l1 ++ { v with owner := nw } :: l2,
        owners := (if (s.heap v.owner).vehicle_count - 1 = 0
                   then s.owners.erase v.owner
                   else s.owners)
                  ++ (if nw ∈ s.owners then [] else [nw]) }) := by
  have hfind : s.find_vehicle_by_plate pl = some v := by
    unfold Register.find_vehicle_by_plate
    rw [hsplit]
    exact find?_of_decomp l1 v l2 hl1 hv
  have heqbF : PersonData.eqb (s.heap v.owner).data (s.heap nw).data = false := by
    cases hb : PersonData.eqb (s.heap v.owner).data (s.heap nw).data with
    | false => rfl
    | true => exact absurd (PersonData.eqb_iff.mp hb) hne
  have hvmem : v ∈ s.vehicles := by
    rw [hsplit]
    exact List.mem_append_right _ (by simp)
  have holdmem : v.owner ∈ s.owners := hg.cover v hvmem
  have hpos : 0 < (s.heap v.owner).vehicle_count := by
    rw [hg.counts v.owner]
    have hmf : v ∈ s.vehicles.filter (fun w => w.owner == v.owner) :=
      List.mem_filter.mpr ⟨hvmem, by simp⟩
    have hlen : 0 < (s.vehicles.filter (fun w => w.owner == v.owner)).length :=
      List.length_pos.mpr (List.ne_nil_of_mem hmf)
    simp only [refCount]
    exact_mod_cast hlen
  have hnwold : nw ≠ v.owner := fun he => hne (by rw [he])
  set h1 := Function.update s.heap v.owner ((s.heap v.owner).decrement_vehicle_count) with hh1
  have hd1 : ∀ x, (h1 x).data = (s.heap x).data := data_update_dec s.heap v.owner
  have hc1 : (h1 v.owner).vehicle_count = (s.heap v.owner).vehicle_count - 1 :=
    cnt_dec_same s.heap v.owner hpos
  have hupf : updateFirst (fun w => w.registration_plate == pl)
      (fun w => { w with owner := nw }) s.vehicles = l1 ++ { v with owner := nw } :: l2 := by
    rw [hsplit]
    exact updateFirst_append v l2 hl1 hv
  have hany_iff : ∀ os : List Nat, os ⊆ s.owners →
      ((os.any (fun r => PersonData.eqb (h1 r).data (h1 nw).data)) = true ↔ nw ∈ os) := by
    intro os hos
    rw [List.any_eq_true]
    constructor
    · rintro ⟨x, hx, hpx⟩
      have hdx : (s.heap x).data = (s.heap nw).data := by
        have h3 := PersonData.eqb_iff.mp hpx
        rwa [hd1, hd1] at h3
      exact hcanon.1 x (hos hx) hdx ▸ hx
    · intro hnwos
      exact ⟨nw, hnwos, PersonData.eqb_iff.mpr rfl⟩
  simp only [Register.update_vehicle_owner, hfind, heqbF, Bool.false_eq_true, if_false]
  rw [hc1]
  by_cases hz : (s.heap v.owner).vehicle_count - 1 = 0
  · have hbz : (((s.heap v.owner).vehicle_count - 1 : Int) == 0) = true := by
      rw [beq_iff_eq]
      exact hz
    rw [if_pos hbz, if_pos hz]
    have hrem : pyRemove (fun r => PersonData.eqb (h1 r).data (h1 v.owner).data) s.owners
        = some (s.owners.erase v.owner) := by
      apply pyRemove_unique hg.onodup holdmem
      intro x hx
      constructor
      · intro hpx
        have hdx : (s.heap x).data = (s.heap v.owner).data := by
          have h3 := PersonData.eqb_iff.mp hpx
          rwa [hd1, hd1] at h3
        exact hg.canonO v.owner holdmem x hx hdx
      · rintro rfl
        exact PersonData.eqb_iff.mpr rfl
    rw [hrem]
    simp only [Option.map_some', Option.some.injEq]
    rw [hupf]
    by_cases hnwmem : nw ∈ s.owners
    · have hnwer : nw ∈ s.owners.erase v.owner :=
        (hg.onodup.mem_erase_iff).mpr ⟨hnwold, hnwmem⟩
      have hb2 := (hany_iff (s.owners.erase v.owner) (List.erase_subset _ _)).mpr hnwer
      rw [hb2, if_pos hnwmem]
      simp
    · have hnwer : nw ∉ s.owners.erase v.owner :=
        fun hmem => hnwmem (List.mem_of_mem_erase hmem)
      have hb2 : ((s.owners.erase v.owner).any
          (fun r => PersonData.eqb (h1 r).data (h1 nw).data)) = false := by
        cases hb : (s.owners.erase v.owner).any
            (fun r => PersonData.eqb (h1 r).data (h1 nw).data) with
        | false => rfl
        | true =>
          exact absurd ((hany_iff (s.owners.erase v.owner) (List.erase_subset _ _)).mp hb) hnwer
      rw [hb2, if_neg hnwmem]
      simp
  · have hbz : (((s.heap v.owner).vehicle_count - 1 : Int) == 0) = false := by
      cases hb : (((s.heap v.owner).vehicle_count - 1 : Int) == 0) with
      | false => rfl
      | true => exact absurd (beq_iff_eq.mp hb) hz
    rw [if_neg (by rw [hbz]; exact Bool.false_ne_true), if_neg hz]
    simp only [Option.map_some', Option.some.injEq]
    rw [hupf]
    by_cases hnwmem : nw ∈ s.owners
    · have hb2 := (hany_iff s.owners (fun a ha => ha)).mpr hnwmem
      rw [hb2, if_pos hnwmem]
      simp
    · have hb2 : (s.owners.any (fun r => PersonData.eqb (h1 r).data (h1 nw).data)) = false := by
        cases hb : s.owners.any (fun r => PersonData.eqb (h1 r).data (h1 nw).data) with
        | false => rfl
        | true => exact absurd ((hany_iff s.owners (fun a ha => ha)).mp hb) hnwmem
      rw [hb2, if_neg hnwmem]
      simp

theorem good_update_fresh (s : Register) (pl : String) (nw : Nat) (l1 l2 : List Vehicle)
    (v : Vehicle)
    (hg : Good s) (hcanon : CanonArg s nw) (hnwr : nw < s.nextRef)
    (hsplit : s.vehicles = l1 ++ v :: l2)
    (hl1 : ∀ w ∈ l1, (w.registration_plate == pl) = false)
    (hv : (v.registration_plate == pl) = true)
    (hne : (s.heap v.owner).data ≠ (s.heap nw).data) :
    Good
      { heap := Function.update
          (Function.update s.heap v.owner ((s.heap v.owner).decrement_vehicle_count)) nw
          (((Function.update s.heap v.owner
              ((s.heap v.owner).decrement_vehicle_count)) nw).increment_vehicle_count),
        nextRef := s.nextRef,
        vehicles := l1 ++ { v with owner := nw } :: l2,
        owners := (if (s.heap v.owner).vehicle_count - 1 = 0
                   then s.owners.erase v.owner
                   else s.owners)
                  ++ (if nw ∈ s.owners then [] else [nw]) } := by
  have hvmem : v ∈ s.vehicles := by
    rw [hsplit]
    exact List.mem_append_right _ (by simp)
  have holdmem : v.owner ∈ s.owners := hg.cover v hvmem
  have hnwold : nw ≠ v.owner := fun he => hne (by rw [he])
  have holdnw : v.owner ≠ nw := fun he => hnwold he.symm
  have hpos : 0 < (s.heap v.owner).vehicle_count := by
    rw [hg.counts v.owner]
    have hmf : v ∈ s.vehicles.filter (fun w => w.owner == v.owner) :=
      List.mem_filter.mpr ⟨hvmem, by simp⟩
    have hlen : 0 < (s.vehicles.filter (fun w => w.owner == v.owner)).length :=
      List.length_pos.mpr (List.ne_nil_of_mem hmf)
    simp only [refCount]
    exact_mod_cast hlen
  set h1 := Function.update s.heap v.owner ((s.heap v.owner).decrement_vehicle_count) with hh1
  set hp2 := Function.update h1 nw ((h1 nw).increment_vehicle_count) with hhp2
  have hdata : ∀ x, (hp2 x).data = (s.heap x).data := by
    intro x
    rw [hhp2, data_update_inc, hh1, data_update_dec]
  have hcold : (hp2 v.owner).vehicle_count = (s.heap v.owner).vehicle_count - 1 := by
    rw [hhp2, cnt_update_noteq _ _ _ _ holdnw, hh1, cnt_dec_same s.heap v.owner hpos]
  have hcnw : (hp2 nw).vehicle_count = (s.heap nw).vehicle_count + 1 := by
    rw [hhp2, cnt_inc_same, hh1, cnt_update_noteq _ _ _ _ hnwold]
  have hcoth : ∀ x, x ≠ v.owner → x ≠ nw → (hp2 x).vehicle_count = (s.heap x).vehicle_count := by
    intro x hxo hxn
    rw [hhp2, cnt_update_noteq _ _ _ _ hxn, hh1, cnt_update_noteq _ _ _ _ hxo]
  -- split of the old owner's count over the decomposition
  have hcnt_split : (s.heap v.owner).vehicle_count =
      ((l1.filter (fun w => w.owner == v.owner)).length
        + 1 + (l2.filter (fun w => w.owner == v.owner)).length : Int) := by
    rw [hg.counts v.owner]
    simp only [refCount, hsplit, List.filter_append, List.filter_cons]
    simp [List.length_append]
    push_cast
    ring
  set os := if (s.heap v.owner).vehicle_count - 1 = 0
            then s.owners.erase v.owner else s.owners with hos
  set tl := if nw ∈ s.owners then ([] : List Nat) else [nw] with htl
  have hsub : os ⊆ s.owners := by
    rw [hos]
    split
    · exact List.erase_subset _ _
    · exact fun a ha => ha
  have hosnd : os.Nodup := by
    rw [hos]
    split
    · exact hg.onodup.erase _
    · exact hg.onodup
  have hold_iff : v.owner ∈ os ↔ (s.heap v.owner).vehicle_count - 1 ≠ 0 := by
    rw [hos]
    split
    · rename_i hzz
      simp only [hg.onodup.mem_erase_iff]
      simp [hzz]
    · rename_i hzz
      simp [holdmem, hzz]
  have hother_mem : ∀ x, x ≠ v.owner → x ∈ s.owners → x ∈ os := by
    intro x hxo hxm
    rw [hos]
    split
    · exact (hg.onodup.mem_erase_iff).mpr ⟨hxo, hxm⟩
    · exact hxm
  have hnw_os_iff : nw ∈ os ↔ nw ∈ s.owners := by
    rw [hos]
    split
    · simp [hg.onodup.mem_erase_iff, hnwold]
    · exact Iff.rfl
  have htl_iff : ∀ x, x ∈ tl ↔ (x = nw ∧ nw ∉ s.owners) := by
    intro x
    rw [htl]
    split
    · rename_i hmm
      simp [hmm]
    · rename_i hmm
      simp [hmm]
  have hmemO : ∀ x, x ∈ os ++ tl ↔ (x ∈ os ∨ x = nw) := by
    intro x
    rw [List.mem_append]
    constructor
    · rintro (hx | hx)
      · exact Or.inl hx
      · exact Or.inr ((htl_iff x).mp hx).1
    · rintro (hx | hxeq)
      · exact Or.inl hx
      · rw [hxeq]
        by_cases hnwm : nw ∈ s.owners
        · exact Or.inl (hnw_os_iff.mpr hnwm)
        · exact Or.inr ((htl_iff nw).mpr ⟨rfl, hnwm⟩)
  -- general canonicity over the references in play afterwards
  have hcanO : ∀ a b, (a ∈ s.owners ∨ a = nw) → (b ∈ s.owners ∨ b = nw) →
      (s.heap b).data = (s.heap a).data → b = a := by
    rintro a b (ha | rfl) (hb | rfl) hd
    · exact hg.canonO a ha b hb hd
    · have := hcanon.1 a ha hd.symm
      rw [this]
    · exact hcanon.1 b hb hd
    · rfl
  constructor
  · intro w hw
    rcases List.mem_append.mp hw with hw2 | hw2
    · exact hg.validV w (by rw [hsplit]; exact List.mem_append_left _ hw2)
    · rcases List.mem_cons.mp hw2 with rfl | hw3
      · exact hnwr
      · exact hg.validV w (by rw [hsplit]; exact List.mem_append_right _ (List.mem_cons_of_mem _ hw3))
  · intro x hx
    rcases (hmemO x).mp hx with hx2 | rfl
    · exact hg.validO x (hsub hx2)
    · exact hnwr
  · show ((l1 ++ { v with owner := nw } :: l2).map (fun w => w.registration_plate)).Nodup
    have hmp : (l1 ++ { v with owner := nw } :: l2).map (fun w => w.registration_plate)
        = s.vehicles.map (fun w => w.registration_plate) := by
      rw [hsplit]
      simp
    rw [hmp]
    exact hg.plates
  · intro w hw
    rcases List.mem_append.mp hw with hw2 | hw2
    · -- w in the prefix
      have hwv : w ∈ s.vehicles := by rw [hsplit]; exact List.mem_append_left _ hw2
      rcases eq_or_ne w.owner v.owner with heq | hneq
      · -- the old owner still owns w, so its count did not reach 0
        have hwf : w ∈ l1.filter (fun w2 => w2.owner == v.owner) :=
          List.mem_filter.mpr ⟨hw2, by simp [heq]⟩
        have hlen : 0 < (l1.filter (fun w2 => w2.owner == v.owner)).length :=
          List.length_pos.mpr (List.ne_nil_of_mem hwf)
        have hnz : (s.heap v.owner).vehicle_count - 1 ≠ 0 := by
          rw [hcnt_split]
          push_cast
          omega
        rw [heq]
        exact List.mem_append_left _ (hold_iff.mpr hnz)
      · exact List.mem_append_left _ (hother_mem w.owner hneq (hg.cover w hwv))
    · rcases List.mem_cons.mp hw2 with rfl | hw3
      · exact (hmemO nw).mpr (Or.inr rfl)
      · have hwv : w ∈ s.vehicles := by
          rw [hsplit]
          exact List.mem_append_right _ (List.mem_cons_of_mem _ hw3)
        rcases eq_or_ne w.owner v.owner with heq | hneq
        · have hwf : w ∈ l2.filter (fun w2 => w2.owner == v.owner) :=
            List.mem_filter.mpr ⟨hw3, by simp [heq]⟩
          have hlen : 0 < (l2.filter (fun w2 => w2.owner == v.owner)).length :=
            List.length_pos.mpr (List.ne_nil_of_mem hwf)
          have hnz : (s.heap v.owner).vehicle_count - 1 ≠ 0 := by
            rw [hcnt_split]
            push_cast
            omega
          rw [heq]
          exact List.mem_append_left _ (hold_iff.mpr hnz)
        · exact List.mem_append_left _ (hother_mem w.owner hneq (hg.cover w hwv))
  · intro x hx
    rcases (hmemO x).mp hx with hx2 | hxeq
    · rcases eq_or_ne x v.owner with heq | hxo
      · -- the old owner is kept only when other vehicles still reference it
        subst heq
        have hnz : (s.heap v.owner).vehicle_count - 1 ≠ 0 := hold_iff.mp hx2
        have hlen : 0 < (l1.filter (fun w2 => w2.owner == v.owner)).length
            + (l2.filter (fun w2 => w2.owner == v.owner)).length := by
          by_contra hle
          apply hnz
          rw [hcnt_split]
          push_cast
          omega
        rcases Nat.lt_or_ge 0 (l1.filter (fun w2 => w2.owner == v.owner)).length with hl | hl
        · obtain ⟨w, hwmem⟩ := List.exists_mem_of_ne_nil _ (List.length_pos.mp hl)
          have hw2 := List.mem_filter.mp hwmem
          refine ⟨w, List.mem_append_left _ hw2.1, by simpa using hw2.2⟩
        · have hl2 : 0 < (l2.filter (fun w2 => w2.owner == v.owner)).length := by omega
          obtain ⟨w, hwmem⟩ := List.exists_mem_of_ne_nil _ (List.length_pos.mp hl2)
          have hw2 := List.mem_filter.mp hwmem
          refine ⟨w, List.mem_append_right _ (List.mem_cons_of_mem _ hw2.1), by simpa using hw2.2⟩
      · obtain ⟨w, hwmem, hwo⟩ := hg.exact_mem x (hsub hx2)
        rw [hsplit] at hwmem
        rcases List.mem_append.mp hwmem with hw2 | hw2
        · exact ⟨w, List.mem_append_left _ hw2, hwo⟩
        · rcases List.mem_cons.mp hw2 with rfl | hw3
          · exact absurd hwo.symm hxo
          · exact ⟨w, List.mem_append_right _ (List.mem_cons_of_mem _ hw3), hwo⟩
    · exact ⟨{ v with owner := nw }, List.mem_append_right _ (by simp), hxeq.symm⟩
  · refine List.nodup_append.mpr ⟨hosnd, ?_, ?_⟩
    · rw [htl]
      split <;> simp
    · intro a ha hb
      obtain ⟨rfl, hnm⟩ := (htl_iff a).mp hb
      exact hnm (hsub ha)
  · intro x hx y hy hd
    rw [hdata, hdata] at hd
    have hx2 : x ∈ s.owners ∨ x = nw := by
      rcases (hmemO x).mp hx with h2 | h2
      · exact Or.inl (hsub h2)
      · exact Or.inr h2
    have hy2 : y ∈ s.owners ∨ y = nw := by
      rcases (hmemO y).mp hy with h2 | h2
      · exact Or.inl (hsub h2)
      · exact Or.inr h2
    exact hcanO x y hx2 hy2 hd
  · intro w hw x hx hd
    rw [hdata, hdata] at hd
    have hx2 : x ∈ s.owners ∨ x = nw := by
      rcases (hmemO x).mp hx with h2 | h2
      · exact Or.inl (hsub h2)
      · exact Or.inr h2
    rcases List.mem_append.mp hw with hw2 | hw2
    · have hwv : w ∈ s.vehicles := by rw [hsplit]; exact List.mem_append_left _ hw2
      rcases hx2 with hx3 | rfl
      · exact hg.canonV w hwv x hx3 hd
      · exact hcanon.2 w hwv hd
    · rcases List.mem_cons.mp hw2 with rfl | hw3
      · show nw = x
        rcases hx2 with hx3 | rfl
        · exact (hcanon.1 x hx3 hd.symm).symm
        · rfl
      · have hwv : w ∈ s.vehicles := by
          rw [hsplit]
          exact List.mem_append_right _ (List.mem_cons_of_mem _ hw3)
        rcases hx2 with hx3 | rfl
        · exact hg.canonV w hwv x hx3 hd
        · exact hcanon.2 w hwv hd
  · intro x
    show (hp2 x).vehicle_count =
      (((l1 ++ { v with owner := nw } :: l2).filter (fun w => w.owner == x)).length : Int)
    have hbase := hg.counts x
    simp only [refCount, hsplit, List.filter_append, List.filter_cons] at hbase
    rw [List.filter_append, List.filter_cons]
    by_cases hxnw : x = nw
    · subst hxnw
      rw [if_pos (show (({ v with owner := x } : Vehicle).owner == x) = true by simp)]
      rw [if_neg (show ¬ ((v.owner == x) = true) by
        simp only [beq_iff_eq]; exact holdnw)] at hbase
      rw [hcnw, hbase]
      push_cast [List.length_append, List.length_cons]
      ring
    · rw [if_neg (show ¬ ((({ v with owner := nw } : Vehicle).owner == x) = true) by
        simp only [beq_iff_eq]; exact fun he => hxnw he.symm)]
      by_cases hxold : x = v.owner
      · subst hxold
        rw [if_pos (show ((v.owner == v.owner) = true) by simp)] at hbase
        rw [hcold, hbase]
        push_cast [List.length_append, List.length_cons]
        ring
      · rw [if_neg (show ¬ ((v.owner == x) = true) by
          simp only [beq_iff_eq]; exact fun he => hxold he.symm)] at hbase
        rw [hcoth x hxold hxnw, hbase]

theorem good_step_update (s s2 : Register) (pl : String) (r : Nat) (hg : Good s)
    (hc : CanonArg s r) (h : runOp s (.update pl r) = some s2) : Good s2 := by
  simp only [runOp] at h
  by_cases hr : r < s.nextRef
  · rw [if_pos hr] at h
    rcases hfind : s.find_vehicle_by_plate pl with _ | v
    · have hres : s.update_vehicle_owner pl r = some (0, s) := by
        simp only [Register.update_vehicle_owner, hfind]
      rw [hres] at h
      simp only [Option.map_some'] at h
      have h2 : s = s2 := Option.some.inj h
      rw [← h2]
      exact hg
    · by_cases heqb : PersonData.eqb (s.heap v.owner).data (s.heap r).data = true
      · have hres : s.update_vehicle_owner pl r = some (0, s) := by
          simp only [Register.update_vehicle_owner, hfind, heqb, if_true]
        rw [hres] at h
        simp only [Option.map_some'] at h
        have h2 : s = s2 := Option.some.inj h
        rw [← h2]
        exact hg
      · have hne : (s.heap v.owner).data ≠ (s.heap r).data :=
          fun hd => heqb (PersonData.eqb_iff.mpr hd)
        have hfind2 : s.vehicles.find? (fun w => w.registration_plate == pl) = some v := hfind
        obtain ⟨l1, l2, hsplit, hl1, hv⟩ := find?_decomp hfind2
        rw [update_ok s pl r l1 l2 v hg hc hsplit hl1 hv hne] at h
        simp only [Option.map_some'] at h
        have h2 := Option.some.inj h
        rw [← h2]
        exact good_update_fresh s pl r l1 l2 v hg hc hr hsplit hl1 hv hne
  · rw [if_neg hr] at h
    cases h

theorem delete_ok (s : Register) (pl : String) (l1 l2 : List Vehicle) (v : Vehicle)
    (hg : Good s)
    (hsplit : s.vehicles = l1 ++ v :: l2)
    (hl1 : ∀ w ∈ l1, (w.registration_plate == pl) = false)
    (hv : (v.registration_plate == pl) = true) :
    s.delete_vehicle pl = some (1,
      { heap := Function.update s.heap v.owner ((s.heap v.owner).decrement_vehicle_count),
        nextRef := s.nextRef,
        vehicles := l1 ++ l2,
        owners := if (s.heap v.owner).vehicle_count - 1 = 0
                  then s.owners.erase v.owner else s.owners }) := by
  have hpl : v.registration_plate = pl := beq_iff_eq.mp hv
  have hfind : s.find_vehicle_by_plate pl = some v := by
    unfold Register.find_vehicle_by_plate
    rw [hsplit]
    exact find?_of_decomp l1 v l2 hl1 hv
  have hvmem : v ∈ s.vehicles := by
    rw [hsplit]
    exact List.mem_append_right _ (by simp)
  have holdmem : v.owner ∈ s.owners := hg.cover v hvmem
  have hpos : 0 < (s.heap v.owner).vehicle_count := by
    rw [hg.counts v.owner]
    have hmf : v ∈ s.vehicles.filter (fun w => w.owner == v.owner) :=
      List.mem_filter.mpr ⟨hvmem, by simp⟩
    have hlen : 0 < (s.vehicles.filter (fun w => w.owner == v.owner)).length :=
      List.length_pos.mpr (List.ne_nil_of_mem hmf)
    simp only [refCount]
    exact_mod_cast hlen
  have hremV : pyRemove (fun w => Vehicle.eqb w v) s.vehicles = some (l1 ++ l2) := by
    rw [hsplit]
    refine pyRemove_append v l2 ?_ (by simp [Vehicle.eqb])
    intro w hw
    show (w.registration_plate == v.registration_plate) = false
    rw [hpl]
    exact hl1 w hw
  set h1 := Function.update s.heap v.owner ((s.heap v.owner).decrement_vehicle_count) with hh1
  have hd1 : ∀ x, (h1 x).data = (s.heap x).data := data_update_dec s.heap v.owner
  have hc1 : (h1 v.owner).vehicle_count = (s.heap v.owner).vehicle_count - 1 :=
    cnt_dec_same s.heap v.owner hpos
  simp only [Register.delete_vehicle, hfind, hremV, Option.some_bind]
  rw [hc1]
  by_cases hz : (s.heap v.owner).vehicle_count - 1 = 0
  · have hbz : (((s.heap v.owner).vehicle_count - 1 : Int) == 0) = true := by
      rw [beq_iff_eq]
      exact hz
    rw [if_pos hbz, if_pos hz]
    have hrem : pyRemove (fun r => PersonData.eqb (h1 r).data (h1 v.owner).data) s.owners
        = some (s.owners.erase v.owner) := by
      apply pyRemove_unique hg.onodup holdmem
      intro x hx
      constructor
      · intro hpx
        have hdx : (s.heap x).data = (s.heap v.owner).data := by
          have h3 := PersonData.eqb_iff.mp hpx
          rwa [hd1, hd1] at h3
        exact hg.canonO v.owner holdmem x hx hdx
      · rintro rfl
        exact PersonData.eqb_iff.mpr rfl
    rw [hrem]
    rfl
  · have hbz : (((s.heap v.owner).vehicle_count - 1 : Int) == 0) = false := by
      cases hb : (((s.heap v.owner).vehicle_count - 1 : Int) == 0) with
      | false => rfl
      | true => exact absurd (beq_iff_eq.mp hb) hz
    rw [if_neg (by rw [hbz]; exact Bool.false_ne_true), if_neg hz]
    rfl

theorem good_delete_fresh (s : Register) (pl : String) (l1 l2 : List Vehicle) (v : Vehicle)
    (hg : Good s)
    (hsplit : s.vehicles = l1 ++ v :: l2)
    (hl1 : ∀ w ∈ l1, (w.registration_plate == pl) = false)
    (hv : (v.registration_plate == pl) = true) :
    Good
      { heap := Function.update s.heap v.owner ((s.heap v.owner).decrement_vehicle_count),
        nextRef := s.nextRef,
        vehicles := l1 ++ l2,
        owners := if (s.heap v.owner).vehicle_count - 1 = 0
                  then s.owners.erase v.owner else s.owners } := by
  have hvmem : v ∈ s.vehicles := by
    rw [hsplit]
    exact List.mem_append_right _ (by simp)
  have holdmem : v.owner ∈ s.owners := hg.cover v hvmem
  have hpos : 0 < (s.heap v.owner).vehicle_count := by
    rw [hg.counts v.owner]
    have hmf : v ∈ s.vehicles.filter (fun w => w.owner == v.owner) :=
      List.mem_filter.mpr ⟨hvmem, by simp⟩
    have hlen : 0 < (s.vehicles.filter (fun w => w.owner == v.owner)).length :=
      List.length_pos.mpr (List.ne_nil_of_mem hmf)
    simp only [refCount]
    exact_mod_cast hlen
  set h1 := Function.update s.heap v.owner ((s.heap v.owner).decrement_vehicle_count) with hh1
  have hdata : ∀ x, (h1 x).data = (s.heap x).data := data_update_dec s.heap v.owner
  have hcold : (h1 v.owner).vehicle_count = (s.heap v.owner).vehicle_count - 1 :=
    cnt_dec_same s.heap v.owner hpos
  have hcoth : ∀ x, x ≠ v.owner → (h1 x).vehicle_count = (s.heap x).vehicle_count := by
    intro x hxo
    rw [hh1, cnt_update_noteq _ _ _ _ hxo]
  have hcnt_split : (s.heap v.owner).vehicle_count =
      ((l1.filter (fun w => w.owner == v.owner)).length
        + 1 + (l2.filter (fun w => w.owner == v.owner)).length : Int) := by
    rw [hg.counts v.owner]
    simp only [refCount, hsplit, List.filter_append, List.filter_cons]
    simp [List.length_append]
    push_cast
    ring
  set os := if (s.heap v.owner).vehicle_count - 1 = 0
            then s.owners.erase v.owner else s.owners with hos
  have hsub : os ⊆ s.owners := by
    rw [hos]
    split
    · exact List.erase_subset _ _
    · exact fun a ha => ha
  have hosnd : os.Nodup := by
    rw [hos]
    split
    · exact hg.onodup.erase _
    · exact hg.onodup
  have hold_iff : v.owner ∈ os ↔ (s.heap v.owner).vehicle_count - 1 ≠ 0 := by
    rw [hos]
    split
    · rename_i hzz
      simp only [hg.onodup.mem_erase_iff]
      simp [hzz]
    · rename_i hzz
      simp [holdmem, hzz]
  have hother_mem : ∀ x, x ≠ v.owner → x ∈ s.owners → x ∈ os := by
    intro x hxo hxm
    rw [hos]
    split
    · exact (hg.onodup.mem_erase_iff).mpr ⟨hxo, hxm⟩
    · exact hxm
  constructor
  · intro w hw
    rcases List.mem_append.mp hw with hw2 | hw2
    · exact hg.validV w (by rw [hsplit]; exact List.mem_append_left _ hw2)
    · exact hg.validV w (by rw [hsplit]; exact List.mem_append_right _ (List.mem_cons_of_mem _ hw2))
  · exact fun x hx => hg.validO x (hsub hx)
  · have hsl : List.Sublist ((l1 ++ l2).map (fun w => w.registration_plate))
        (s.vehicles.map (fun w => w.registration_plate)) := by
      rw [hsplit]
      exact (List.Sublist.append (List.Sublist.refl l1) (List.sublist_cons_self v l2)).map _
    exact hg.plates.sublist hsl
  · intro w hw
    have hwv : w ∈ s.vehicles := by
      rw [hsplit]
      rcases List.mem_append.mp hw with hw2 | hw2
      · exact List.mem_append_left _ hw2
      · exact List.mem_append_right _ (List.mem_cons_of_mem _ hw2)
    rcases eq_or_ne w.owner v.owner with heq | hneq
    · have hnz : (s.heap v.owner).vehicle_count - 1 ≠ 0 := by
        rcases List.mem_append.mp hw with hw2 | hw2
        · have hwf : w ∈ l1.filter (fun w2 => w2.owner == v.owner) :=
            List.mem_filter.mpr ⟨hw2, by simp [heq]⟩
          have hlen : 0 < (l1.filter (fun w2 => w2.owner == v.owner)).length :=
            List.length_pos.mpr (List.ne_nil_of_mem hwf)
          rw [hcnt_split]
          push_cast
          omega
        · have hwf : w ∈ l2.filter (fun w2 => w2.owner == v.owner) :=
            List.mem_filter.mpr ⟨hw2, by simp [heq]⟩
          have hlen : 0 < (l2.filter (fun w2 => w2.owner == v.owner)).length :=
            List.length_pos.mpr (List.ne_nil_of_mem hwf)
          rw [hcnt_split]
          push_cast
          omega
      rw [heq]
      exact hold_iff.mpr hnz
    · exact hother_mem w.owner hneq (hg.cover w hwv)
  · intro x hx
    rcases eq_or_ne x v.owner with heq | hxo
    · subst heq
      have hnz : (s.heap v.owner).vehicle_count - 1 ≠ 0 := hold_iff.mp hx
      have hlen : 0 < (l1.filter (fun w2 => w2.owner == v.owner)).length
          + (l2.filter (fun w2 => w2.owner == v.owner)).length := by
        by_contra hle
        apply hnz
        rw [hcnt_split]
        push_cast
        omega
      rcases Nat.lt_or_ge 0 (l1.filter (fun w2 => w2.owner == v.owner)).length with hl | hl
      · obtain ⟨w, hwmem⟩ := List.exists_mem_of_ne_nil _ (List.length_pos.mp hl)
        have hw2 := List.mem_filter.mp hwmem
        refine ⟨w, List.mem_append_left _ hw2.1, by simpa using hw2.2⟩
      · have hl2 : 0 < (l2.filter (fun w2 => w2.owner == v.owner)).length := by omega
        obtain ⟨w, hwmem⟩ := List.exists_mem_of_ne_nil _ (List.length_pos.mp hl2)
        have hw2 := List.mem_filter.mp hwmem
        refine ⟨w, List.mem_append_right _ hw2.1, by simpa using hw2.2⟩
    · obtain ⟨w, hwmem, hwo⟩ := hg.exact_mem x (hsub hx)
      rw [hsplit] at hwmem
      rcases List.mem_append.mp hwmem with hw2 | hw2
      · exact ⟨w, List.mem_append_left _ hw2, hwo⟩
      · rcases List.mem_cons.mp hw2 with rfl | hw3
        · exact absurd hwo.symm hxo
        · exact ⟨w, List.mem_append_right _ hw3, hwo⟩
  · exact hosnd
  · intro x hx y hy hd
    rw [hdata, hdata] at hd
    exact hg.canonO x (hsub hx) y (hsub hy) hd
  · intro w hw x hx hd
    rw [hdata, hdata] at hd
    have hwv : w ∈ s.vehicles := by
      rw [hsplit]
      rcases List.mem_append.mp hw with hw2 | hw2
      · exact List.mem_append_left _ hw2
      · exact List.mem_append_right _ (List.mem_cons_of_mem _ hw2)
    exact hg.canonV w hwv x (hsub hx) hd
  · intro x
    show (h1 x).vehicle_count =
      (((l1 ++ l2).filter (fun w => w.owner == x)).length : Int)
    have hbase := hg.counts x
    simp only [refCount, hsplit, List.filter_append, List.filter_cons] at hbase
    rw [List.filter_append]
    by_cases hxold : x = v.owner
    · subst hxold
      rw [if_pos (show ((v.owner == v.owner) = true) by simp)] at hbase
      rw [hcold, hbase]
      push_cast [List.length_append, List.length_cons]
      ring
    · rw [if_neg (show ¬ ((v.owner == x) = true) by
        simp only [beq_iff_eq]; exact fun he => hxold he.symm)] at hbase
      rw [hcoth x hxold, hbase]

theorem good_step_delete (s s2 : Register) (pl : String) (hg : Good s)
    (h : runOp s (.delete pl) = some s2) : Good s2 := by
  simp only [runOp] at h
  rcases hfind : s.find_vehicle_by_plate pl with _ | v
  · have hres : s.delete_vehicle pl = some (0, s) := by
      simp only [Register.delete_vehicle, hfind]
    rw [hres] at h
    simp only [Option.map_some'] at h
    have h2 : s = s2 := Option.some.inj h
    rw [← h2]
    exact hg
  · have hfind2 : s.vehicles.find? (fun w => w.registration_plate == pl) = some v := hfind
    obtain ⟨l1, l2, hsplit, hl1, hv⟩ := find?_decomp hfind2
    rw [delete_ok s pl l1 l2 v hg hsplit hl1 hv] at h
    simp only [Option.map_some'] at h
    have h2 := Option.some.inj h
    rw [← h2]
    exact good_delete_fresh s pl l1 l2 v hg hsplit hl1 hv

theorem creach_good {s : Register} (h : CReach s) : Good s := by
  induction h with
  | start => exact good_init
  | newPerson s s2 d hs hrun ih => exact good_step_new s s2 d ih hrun
  | insertV s s2 pl dt r hs hc hrun ih => exact good_step_insert s s2 pl dt r ih hc hrun
  | updateV s s2 pl r hs hc hrun ih => exact good_step_update s s2 pl r ih hc hrun
  | deleteV s s2 pl hs hrun ih => exact good_step_delete s s2 pl ih hrun

theorem plates_concat {l : List Vehicle} {v : Vehicle}
    (hp : (l.map (fun w => w.registration_plate)).Nodup)
    (hfresh : ∀ w ∈ l, w.registration_plate ≠ v.registration_plate) :
    ((l ++ [v]).map (fun w => w.registration_plate)).Nodup := by
  rw [List.map_append]
  refine List.nodup_append.mpr ⟨hp, by simp, ?_⟩
  intro a ha hb
  simp only [List.map_cons, List.map_nil, List.mem_singleton] at hb
  obtain ⟨w, hw, hwp⟩ := List.mem_map.mp ha
  exact hfresh w hw (by rw [hwp, hb])

theorem runOp_plates (s s2 : Register) (op : Op) (h : runOp s op = some s2)
    (hp : (s.vehicles.map (fun w => w.registration_plate)).Nodup) :
    (s2.vehicles.map (fun w => w.registration_plate)).Nodup := by
  cases op with
  | newPerson d =>
    have h2 := Option.some.inj h
    rw [← h2]
    exact hp
  | insert pl dt r =>
    simp only [runOp] at h
    by_cases hr : r < s.nextRef
    · rw [if_pos hr] at h
      have h2 := Option.some.inj h
      rw [← h2]
      by_cases hdup : (s.vehicles.any (fun w => Vehicle.eqb w ⟨pl, dt, r⟩)) = true
      · have hres : s.insert_vehicle ⟨pl, dt, r⟩ = (0, s) := by
          simp only [Register.insert_vehicle, hdup, if_true]
        rw [hres]
        exact hp
      · have hfresh : ∀ w ∈ s.vehicles,
            w.registration_plate ≠ (Vehicle.mk pl dt r).registration_plate := by
          intro w hw heq
          exact hdup (List.any_eq_true.mpr ⟨w, hw, Vehicle.eqb_plate_iff.mpr heq⟩)
        rw [insert_ok s _ hfresh]
        exact plates_concat hp hfresh
    · rw [if_neg hr] at h
      cases h
  | update pl r =>
    simp only [runOp] at h
    by_cases hr : r < s.nextRef
    · rw [if_pos hr] at h
      rcases hfind : s.find_vehicle_by_plate pl with _ | v
      · have hres : s.update_vehicle_owner pl r = some (0, s) := by
          simp only [Register.update_vehicle_owner, hfind]
        rw [hres] at h
        simp only [Option.map_some'] at h
        have h2 : s = s2 := Option.some.inj h
        rw [← h2]
        exact hp
      · by_cases heqb : PersonData.eqb (s.heap v.owner).data (s.heap r).data = true
        · have hres : s.update_vehicle_owner pl r = some (0, s) := by
            simp only [Register.update_vehicle_owner, hfind, heqb, if_true]
          rw [hres] at h
          simp only [Option.map_some'] at h
          have h2 : s = s2 := Option.some.inj h
          rw [← h2]
          exact hp
        · simp only [Register.update_vehicle_owner, hfind, heqb, Bool.false_eq_true, if_false,
            Option.map_map] at h
          obtain ⟨os, hX, hs2⟩ := Option.map_eq_some'.mp h
          rw [← hs2]
          show ((updateFirst (fun w => w.registration_plate == pl)
              (fun w => { w with owner := r }) s.vehicles).map
                (fun w => w.registration_plate)).Nodup
          rw [@map_updateFirst Vehicle String (fun w => w.registration_plate == pl)
            (fun w => { w with owner := r }) (fun w => w.registration_plate)
            (fun x => rfl) s.vehicles]
          exact hp
    · rw [if_neg hr] at h
      cases h
  | delete pl =>
    simp only [runOp] at h
    rcases hfind : s.find_vehicle_by_plate pl with _ | v
    · have hres : s.delete_vehicle pl = some (0, s) := by
        simp only [Register.delete_vehicle, hfind]
      rw [hres] at h
      simp only [Option.map_some'] at h
      have h2 : s = s2 := Option.some.inj h
      rw [← h2]
      exact hp
    · simp only [Register.delete_vehicle, hfind] at h
      rcases hV : pyRemove (fun w => Vehicle.eqb w v) s.vehicles with _ | vs
      · rw [hV] at h
        cases h
      · rw [hV] at h
        simp only [Option.some_bind, Option.map_map] at h
        obtain ⟨os, hX, hs2⟩ := Option.map_eq_some'.mp h
        rw [← hs2]
        show ((vs.map (fun w => w.registration_plate)).Nodup)
        obtain ⟨m1, a, m2, hl, hvs, hpa, hm1⟩ := pyRemove_some_decomp hV
        have hsl : List.Sublist (vs.map (fun w => w.registration_plate))
            (s.vehicles.map (fun w => w.registration_plate)) := by
          rw [hl, hvs]
          exact (List.Sublist.append (List.Sublist.refl m1) (List.sublist_cons_self a m2)).map _
        exact hp.sublist hsl

theorem runOps_plates (ops : List Op) : ∀ (s s2 : Register),
    runOps s ops = some s2 →
    (s.vehicles.map (fun w => w.registration_plate)).Nodup →
    (s2.vehicles.map (fun w => w.registration_plate)).Nodup := by
  induction ops with
  | nil =>
    intro s s2 h hp
    have h2 : s = s2 := Option.some.inj h
    rw [← h2]
    exact hp
  | cons op ops ih =>
    intro s s2 h hp
    simp only [runOps] at h
    rcases hs : runOp s op with _ | s1
    · rw [hs] at h
      cases h
    · rw [hs] at h
      simp only [Option.some_bind] at h
      exact ih s1 s2 h (runOp_plates s s1 op hs hp)

/-- A call to `increment_vehicle_count` or `decrement_vehicle_count`. -/
inductive CountOp where
  | inc
  | dec

/-- Run a sequence of count calls on a `Person` object. -/
def PersonObj.applyCountOps (p : PersonObj) : List CountOp → PersonObj
  | [] => p
  | CountOp.inc :: ops => (p.increment_vehicle_count).applyCountOps ops
  | CountOp.dec :: ops => (p.decrement_vehicle_count).applyCountOps ops

theorem applyCountOps_nonneg (ops : List CountOp) : ∀ p : PersonObj,
    0 ≤ p.vehicle_count → 0 ≤ (p.applyCountOps ops).vehicle_count := by
  induction ops with
  | nil => exact fun p hp => hp
  | cons op ops ih =>
    intro p hp
    cases op with
    | inc =>
      show 0 ≤ ((p.increment_vehicle_count).applyCountOps ops).vehicle_count
      refine ih _ ?_
      show 0 ≤ p.vehicle_count + 1
      omega
    | dec =>
      show 0 ≤ ((p.decrement_vehicle_count).applyCountOps ops).vehicle_count
      refine ih _ ?_
      unfold PersonObj.decrement_vehicle_count
      split
      · show 0 ≤ p.vehicle_count - 1
        omega
      · exact hp

/-- C10: `decrement_vehicle_count` subtracts 1 exactly when the count is
positive and otherwise changes nothing, so starting from construction
(count 0) any sequence of increment and decrement calls keeps the count
nonnegative. -/
theorem c10_decrement_clamps :
    (∀ p : PersonObj, (p.decrement_vehicle_count).vehicle_count
        = if p.vehicle_count > 0 then p.vehicle_count - 1 else p.vehicle_count) ∧
    (∀ (d : PersonData) (ops : List CountOp),
        0 ≤ ((PersonObj.create d).applyCountOps ops).vehicle_count) := by
  constructor
  · intro p
    unfold PersonObj.decrement_vehicle_count
    split
    · rfl
    · rfl
  · intro d ops
    exact applyCountOps_nonneg ops _ (by show (0 : Int) ≤ 0; omega)

/-- C1, counterexample: a reachable state (two distinct but equal `Person`
objects each owning a vehicle, then one ownership transfer) in which a
vehicle's owner has no equal person in `owners`, so the owners collection
is not exact. -/
theorem c1_counterexample :
    Reachable (stateOf aliasTrace1) ∧ ¬ OwnersExact (stateOf aliasTrace1) :=
  ⟨⟨aliasTrace1, rfl⟩, by decide⟩

/-- C2, counterexample: a reachable state in which the person in `owners`
has `vehicle_count = 1` while two vehicles are owned by an equal person. -/
theorem c2_counterexample :
    Reachable (stateOf aliasTrace2) ∧ ¬ CountsOk (stateOf aliasTrace2) :=
  ⟨⟨aliasTrace2, rfl⟩, by decide⟩

/-- C3, counterexample: a reachable state and a well-formed call on which
`update_vehicle_owner` raises `ValueError` inside `owners.remove`
(modelled as `none`) instead of returning a result code. -/
theorem c3_counterexample :
    Reachable (stateOf aliasTrace3) ∧ 3 < (stateOf aliasTrace3).nextRef ∧
      (stateOf aliasTrace3).update_vehicle_owner "v1" 3 = none :=
  ⟨⟨aliasTrace3, rfl⟩, by decide, rfl⟩

/-- C5, counterexample: a reachable state where the plate is present and
the current owner differs from the new owner, yet `update_vehicle_owner`
raises (returns `none`) rather than returning `1` with the promised
postconditions. -/
theorem c5_counterexample :
    Reachable (stateOf aliasTrace3) ∧
      (stateOf aliasTrace3).find_vehicle_by_plate "v1" = some ⟨"v1", "d1", 0⟩ ∧
      ((stateOf aliasTrace3).heap (Vehicle.mk "v1" "d1" 0).owner).data
        ≠ ((stateOf aliasTrace3).heap 3).data ∧
      3 < (stateOf aliasTrace3).nextRef ∧
      (stateOf aliasTrace3).update_vehicle_owner "v1" 3 = none :=
  ⟨⟨aliasTrace3, rfl⟩, rfl, by decide, by decide, rfl⟩

/-- C7, counterexample: a reachable state where the plate is present yet
`delete_vehicle` raises (returns `none`) instead of returning `1`. -/
theorem c7_counterexample :
    Reachable (stateOf aliasTrace7) ∧
      (stateOf aliasTrace7).find_vehicle_by_plate "v2" = some ⟨"v2", "d2", 1⟩ ∧
      (stateOf aliasTrace7).delete_vehicle "v2" = none :=
  ⟨⟨aliasTrace7, rfl⟩, rfl, rfl⟩

/-- C9, counterexample: a reachable state whose `owners` list is empty
(so the queried person appears nowhere in `list_owners`) while
`list_vehicle_by_owner` still returns a vehicle. -/
theorem c9_counterexample :
    Reachable (stateOf aliasTrace7) ∧
      (∀ r ∈ (stateOf aliasTrace7).list_owners,
        ((stateOf aliasTrace7).heap r).data ≠ ⟨"a", "a", 1⟩) ∧
      (stateOf aliasTrace7).list_vehicle_by_owner ⟨"a", "a", 1⟩ ≠ [] :=
  ⟨⟨aliasTrace7, rfl⟩, by decide, by decide⟩

/-- C4: whenever `insert_vehicle`, `update_vehicle_owner` or
`delete_vehicle` returns the code `0`, the whole state — vehicles,
owners, and every person object's count — is exactly as before the
call. -/
theorem c4_zero_is_noop :
    (∀ (s : Register) (v : Vehicle) (s2 : Register),
        s.insert_vehicle v = (0, s2) → s2 = s) ∧
    (∀ (s : Register) (pl : String) (r : Nat) (s2 : Register),
        s.update_vehicle_owner pl r = some (0, s2) → s2 = s) ∧
    (∀ (s : Register) (pl : String) (s2 : Register),
        s.delete_vehicle pl = some (0, s2) → s2 = s) := by
  refine ⟨?_, ?_, ?_⟩
  · intro s v s2 h
    by_cases hdup : (s.vehicles.any (fun w => Vehicle.eqb w v)) = true
    · have hres : s.insert_vehicle v = (0, s) := by
        simp only [Register.insert_vehicle, hdup, if_true]
      rw [hres] at h
      injection h with h1 h2
      exact h2.symm
    · have hfresh : ∀ w ∈ s.vehicles, w.registration_plate ≠ v.registration_plate := by
        intro w hw heq
        exact hdup (List.any_eq_true.mpr ⟨w, hw, Vehicle.eqb_plate_iff.mpr heq⟩)
      rw [insert_ok s v hfresh] at h
      injection h with h1 h2
      exact absurd h1 (by decide)
  · intro s pl r s2 h
    rcases hfind : s.find_vehicle_by_plate pl with _ | v
    · simp only [Register.update_vehicle_owner, hfind, Option.some.injEq, Prod.mk.injEq,
        true_and] at h
      exact h.symm
    · by_cases heqb : PersonData.eqb (s.heap v.owner).data (s.heap r).data = true
      · simp only [Register.update_vehicle_owner, hfind, heqb, if_true, Option.some.injEq,
          Prod.mk.injEq, true_and] at h
        exact h.symm
      · have heqbF : PersonData.eqb (s.heap v.owner).data (s.heap r).data = false := by
          simpa using heqb
        simp only [Register.update_vehicle_owner, hfind, heqbF, Bool.false_eq_true, if_false] at h
        obtain ⟨os, hA, hEq⟩ := Option.map_eq_some'.mp h
        injection hEq with h1 h2
        exact absurd h1 (by decide)
  · intro s pl s2 h
    rcases hfind : s.find_vehicle_by_plate pl with _ | v
    · simp only [Register.delete_vehicle, hfind, Option.some.injEq, Prod.mk.injEq,
        true_and] at h
      exact h.symm
    · simp only [Register.delete_vehicle, hfind] at h
      rcases hV : pyRemove (fun w => Vehicle.eqb w v) s.vehicles with _ | vs
      · rw [hV] at h
        cases h
      · rw [hV] at h
        simp only [Option.some_bind] at h
        obtain ⟨os, hA, hEq⟩ := Option.map_eq_some'.mp h
        injection hEq with h1 h2
        exact absurd h1 (by decide)

/-- C4, witness: a rejected duplicate insert, an update of an unknown
plate, and a deletion of an unknown plate each return `0` with the state
unchanged. -/
theorem c4_witness :
    ((stateOf demoTrace).insert_vehicle ⟨"abc0", "x", 0⟩ = (0, stateOf demoTrace) ∧
      stateOf demoTrace = stateOf demoTrace) ∧
    ((stateOf demoTrace).update_vehicle_owner "nope" 0 = some (0, stateOf demoTrace) ∧
      stateOf demoTrace = stateOf demoTrace) ∧
    ((stateOf demoTrace).delete_vehicle "nope" = some (0, stateOf demoTrace) ∧
      stateOf demoTrace = stateOf demoTrace) :=
  ⟨⟨rfl, c4_zero_is_noop.1 (stateOf demoTrace) ⟨"abc0", "x", 0⟩ (stateOf demoTrace) rfl⟩,
   ⟨rfl, c4_zero_is_noop.2.1 (stateOf demoTrace) "nope" 0 (stateOf demoTrace) rfl⟩,
   ⟨rfl, c4_zero_is_noop.2.2 (stateOf demoTrace) "nope" (stateOf demoTrace) rfl⟩⟩

/-- C6: a fresh-plate insert returns `1`, appends the vehicle at the end
of `vehicles`, appends the owner to `owners` exactly when no equal person
was already there, and increments the owner object's count by one. -/
theorem c6_insert_success (s : Register) (v : Vehicle)
    (hfresh : ∀ w ∈ s.vehicles, w.registration_plate ≠ v.registration_plate) :
    ∃ s2, s.insert_vehicle v = (1, s2) ∧
      s2.vehicles = s.vehicles ++ [v] ∧
      ((∃ x ∈ s.owners, (s.heap x).data = (s.heap v.owner).data) → s2.owners = s.owners) ∧
      ((∀ x ∈ s.owners, (s.heap x).data ≠ (s.heap v.owner).data) →
        s2.owners = s.owners ++ [v.owner]) ∧
      s2.vcnt v.owner = s.vcnt v.owner + 1 := by
  refine ⟨_, insert_ok s v hfresh, rfl, ?_, ?_, ?_⟩
  · intro hmem
    show (if ∃ x ∈ s.owners, (s.heap x).data = (s.heap v.owner).data
          then s.owners else s.owners ++ [v.owner]) = s.owners
    rw [if_pos hmem]
  · intro hall
    have hnot : ¬ ∃ x ∈ s.owners, (s.heap x).data = (s.heap v.owner).data := by
      rintro ⟨x, hx, hd⟩
      exact hall x hx hd
    show (if ∃ x ∈ s.owners, (s.heap x).data = (s.heap v.owner).data
          then s.owners else s.owners ++ [v.owner]) = s.owners ++ [v.owner]
    rw [if_neg hnot]
  · exact cnt_inc_same s.heap v.owner

/-- C6, witness: inserting a fresh plate into the demo state. -/
theorem c6_witness :
    ∃ s2, (stateOf demoTrace).insert_vehicle ⟨"zzz", "20230101", 0⟩ = (1, s2) ∧
      s2.vehicles = (stateOf demoTrace).vehicles ++ [⟨"zzz", "20230101", 0⟩] ∧
      ((∃ x ∈ (stateOf demoTrace).owners,
          ((stateOf demoTrace).heap x).data
            = ((stateOf demoTrace).heap (Vehicle.mk "zzz" "20230101" 0).owner).data) →
        s2.owners = (stateOf demoTrace).owners) ∧
      ((∀ x ∈ (stateOf demoTrace).owners,
          ((stateOf demoTrace).heap x).data
            ≠ ((stateOf demoTrace).heap (Vehicle.mk "zzz" "20230101" 0).owner).data) →
        s2.owners = (stateOf demoTrace).owners ++ [(Vehicle.mk "zzz" "20230101" 0).owner]) ∧
      s2.vcnt (Vehicle.mk "zzz" "20230101" 0).owner
        = (stateOf demoTrace).vcnt (Vehicle.mk "zzz" "20230101" 0).owner + 1 :=
  c6_insert_success (stateOf demoTrace) ⟨"zzz", "20230101", 0⟩ (by decide)

/-- C8: in every reachable state no two vehicles share a registration
plate. -/
theorem c8_plates_nodup (s : Register) (h : Reachable s) :
    (s.vehicles.map (fun w => w.registration_plate)).Nodup := by
  obtain ⟨ops, hrun⟩ := h
  exact runOps_plates ops initState s hrun (by simp [initState])

/-- C8, witness: the demo state is reachable and its plates are distinct. -/
theorem c8_witness :
    ((stateOf demoTrace).vehicles.map (fun w => w.registration_plate)).Nodup :=
  c8_plates_nodup (stateOf demoTrace) ⟨demoTrace, rfl⟩

theorem pyRemove_isSome {p : α → Bool} {l : List α} {a : α} (ha : a ∈ l) (hpa : p a = true) :
    (pyRemove p l).isSome = true := by
  induction l with
  | nil => cases ha
  | cons x xs ih =>
    rcases List.mem_cons.mp ha with rfl | ha2
    · simp [pyRemove, hpa]
    · by_cases hx : p x
      · simp [pyRemove, hx]
      · have hx2 : p x = false := by simpa using hx
        simp only [pyRemove, hx2, Bool.false_eq_true, if_false, Option.isSome_map']
        exact ih ha2

/-- A canonical construction of the demo state: two distinct persons and
one vehicle each, driven through `CReach`. -/
theorem creach_demo : CReach (stateOf demoTrace) := by
  have h1 : CReach (stateOf [Op.newPerson ⟨"John", "Doe", 20⟩]) :=
    CReach.newPerson initState _ ⟨"John", "Doe", 20⟩ CReach.start rfl
  have h2 : CReach (stateOf [Op.newPerson ⟨"John", "Doe", 20⟩,
      Op.newPerson ⟨"Alice", "Doe", 22⟩]) :=
    CReach.newPerson _ _ ⟨"Alice", "Doe", 22⟩ h1 rfl
  have h3 : CReach (stateOf [Op.newPerson ⟨"John", "Doe", 20⟩,
      Op.newPerson ⟨"Alice", "Doe", 22⟩, Op.insert "abc0" "20221122" 0]) :=
    CReach.insertV _ _ "abc0" "20221122" 0 h2 (by decide) rfl
  exact CReach.insertV _ _ "abc1" "20221123" 1 h3 (by decide) rfl

/-- C1, amended: in every state reached through canonical person usage
(one object per person, as in the repository's tests), the owners
collection is exactly the distinct persons owning at least one vehicle. -/
theorem c1_owners_exact_of_canonical (s : Register) (h : CReach s) : OwnersExact s := by
  have hg := creach_good h
  refine ⟨?_, ?_, ?_⟩
  · intro w hw
    exact ⟨w.owner, hg.cover w hw, rfl⟩
  · intro r hr
    obtain ⟨w, hw, hwo⟩ := hg.exact_mem r hr
    exact ⟨w, hw, by rw [hwo]⟩
  · refine List.Nodup.map_on ?_ hg.onodup
    intro x hx y hy hd
    exact hg.canonO y hy x hx hd

/-- C1, witness: the demo state is canonically reachable and its owners
collection is exact. -/
theorem c1_witness : OwnersExact (stateOf demoTrace) :=
  c1_owners_exact_of_canonical (stateOf demoTrace) creach_demo

/-- C2, amended: in every canonically reached state, each person in
`owners` has `vehicle_count` equal to the number of vehicles whose owner
equals it.  (With distinct but equal `Person` objects the counts go
stale, as the counterexample shows.) -/
theorem c2_counts_of_canonical (s : Register) (h : CReach s) : CountsOk s := by
  have hg := creach_good h
  intro r hr
  have hfc : s.vehicles.filter (fun w => PersonData.eqb (s.heap w.owner).data (s.heap r).data)
      = s.vehicles.filter (fun w => w.owner == r) := by
    apply List.filter_congr
    intro w hw
    rw [Bool.eq_iff_iff]
    simp only [PersonData.eqb_iff, beq_iff_eq]
    constructor
    · exact fun hd => hg.canonV w hw r hr hd
    · intro he
      rw [he]
  show (s.heap r).vehicle_count = _
  rw [hfc]
  exact hg.counts r

/-- C2, witness: counts are exact in the demo state. -/
theorem c2_witness : CountsOk (stateOf demoTrace) :=
  c2_counts_of_canonical (stateOf demoTrace) creach_demo

/-- C3, amended: in every canonically reached state no call raises:
`update_vehicle_owner` and `delete_vehicle` (the only operations whose
Python code can raise, in their `owners.remove` calls) always return a
result, for any plate and any new owner; the remaining four operations
are total by construction. -/
theorem c3_no_exception_of_canonical (s : Register) (h : CReach s) (pl : String) (r : Nat) :
    (s.update_vehicle_owner pl r).isSome = true ∧ (s.delete_vehicle pl).isSome = true := by
  have hg := creach_good h
  constructor
  · rcases hfind : s.find_vehicle_by_plate pl with _ | v
    · simp [Register.update_vehicle_owner, hfind]
    · by_cases heqb : PersonData.eqb (s.heap v.owner).data (s.heap r).data = true
      · simp [Register.update_vehicle_owner, hfind, heqb]
      · have heqbF : PersonData.eqb (s.heap v.owner).data (s.heap r).data = false := by
          simpa using heqb
        have hvmem : v ∈ s.vehicles := List.mem_of_find?_eq_some hfind
        have holdmem : v.owner ∈ s.owners := hg.cover v hvmem
        simp only [Register.update_vehicle_owner, hfind, heqbF, Bool.false_eq_true, if_false,
          Option.isSome_map']
        split
        · exact pyRemove_isSome holdmem (PersonData.eqb_iff.mpr rfl)
        · rfl
  · rcases hfind : s.find_vehicle_by_plate pl with _ | v
    · simp [Register.delete_vehicle, hfind]
    · have hvmem : v ∈ s.vehicles := List.mem_of_find?_eq_some hfind
      have holdmem : v.owner ∈ s.owners := hg.cover v hvmem
      have hVs : (pyRemove (fun w => Vehicle.eqb w v) s.vehicles).isSome = true :=
        pyRemove_isSome hvmem (by simp [Vehicle.eqb])
      rcases hV : pyRemove (fun w => Vehicle.eqb w v) s.vehicles with _ | vs
      · rw [hV] at hVs
        cases hVs
      · simp only [Register.delete_vehicle, hfind, hV, Option.some_bind, Option.isSome_map']
        split
        · exact pyRemove_isSome holdmem (PersonData.eqb_iff.mpr rfl)
        · rfl

/-- C3, witness: a concrete update and delete on the demo state both
return a result. -/
theorem c3_witness :
    ((stateOf demoTrace).update_vehicle_owner "abc0" 1).isSome = true ∧
      ((stateOf demoTrace).delete_vehicle "abc0").isSome = true :=
  c3_no_exception_of_canonical (stateOf demoTrace) creach_demo "abc0" 1

/-- C5, amended: in a canonically reached state, when the plate is
present and the current owner differs from the (canonical) new owner,
`update_vehicle_owner` returns `1`; the old owner object's count drops
by one; the old owner stays in `owners` exactly while its count is
nonzero; only the found vehicle is modified, its owner field becoming
`new_owner`; `new_owner` is appended to `owners` exactly when it was not
already there; and `new_owner`'s count rises by one. -/
theorem c5_update_success_of_canonical (s : Register) (pl : String) (nw : Nat) (v : Vehicle)
    (h : CReach s) (hfind : s.find_vehicle_by_plate pl = some v)
    (hne : (s.heap v.owner).data ≠ (s.heap nw).data)
    (hnwr : nw < s.nextRef) (hcanon : CanonArg s nw) :
    ∃ s2, s.update_vehicle_owner pl nw = some (1, s2) ∧
      s2.vcnt v.owner = s.vcnt v.owner - 1 ∧
      (v.owner ∈ s2.owners ↔ s2.vcnt v.owner ≠ 0) ∧
      (∃ m1 m2, s.vehicles = m1 ++ v :: m2 ∧
        s2.vehicles = m1 ++ { v with owner := nw } :: m2) ∧
      s2.owners = ((if s.vcnt v.owner - 1 = 0 then s.owners.erase v.owner else s.owners)
                   ++ (if nw ∈ s.owners then [] else [nw])) ∧
      s2.vcnt nw = s.vcnt nw + 1 := by
  have hg := creach_good h
  have hfind2 : s.vehicles.find? (fun w => w.registration_plate == pl) = some v := hfind
  obtain ⟨l1, l2, hsplit, hl1, hv⟩ := find?_decomp hfind2
  have hvmem : v ∈ s.vehicles := List.mem_of_find?_eq_some hfind2
  have holdmem : v.owner ∈ s.owners := hg.cover v hvmem
  have hnwold : nw ≠ v.owner := fun he => hne (by rw [he])
  have holdnw : v.owner ≠ nw := fun he => hnwold he.symm
  have hpos : 0 < (s.heap v.owner).vehicle_count := by
    rw [hg.counts v.owner]
    have hmf : v ∈ s.vehicles.filter (fun w => w.owner == v.owner) :=
      List.mem_filter.mpr ⟨hvmem, by simp⟩
    have hlen : 0 < (s.vehicles.filter (fun w => w.owner == v.owner)).length :=
      List.length_pos.mpr (List.ne_nil_of_mem hmf)
    simp only [refCount]
    exact_mod_cast hlen
  have hc2 : ((Function.update
      (Function.update s.heap v.owner ((s.heap v.owner).decrement_vehicle_count)) nw
      (((Function.update s.heap v.owner
          ((s.heap v.owner).decrement_vehicle_count)) nw).increment_vehicle_count)) v.owner).vehicle_count
      = (s.heap v.owner).vehicle_count - 1 := by
    rw [cnt_update_noteq _ _ _ _ holdnw, cnt_dec_same s.heap v.owner hpos]
  refine ⟨_, update_ok s pl nw l1 l2 v hg hcanon hsplit hl1 hv hne, hc2, ?_, ⟨l1, l2, hsplit, rfl⟩,
    rfl, ?_⟩
  · show v.owner ∈ (if (s.heap v.owner).vehicle_count - 1 = 0
        then s.owners.erase v.owner else s.owners) ++ (if nw ∈ s.owners then [] else [nw]) ↔
      ((Function.update
        (Function.update s.heap v.owner ((s.heap v.owner).decrement_vehicle_count)) nw
        (((Function.update s.heap v.owner
            ((s.heap v.owner).decrement_vehicle_count)) nw).increment_vehicle_count)) v.owner).vehicle_count ≠ 0
    rw [hc2]
    by_cases hz : (s.heap v.owner).vehicle_count - 1 = 0
    · rw [if_pos hz]
      constructor
      · intro hmem
        rcases List.mem_append.mp hmem with hm | hm
        · exact absurd ((hg.onodup.mem_erase_iff.mp hm).1 rfl) (by simp)
        · have : v.owner = nw := by
            revert hm
            split
            · intro hm
              cases hm
            · intro hm
              simpa using hm
          exact absurd this holdnw
      · intro hmem
        exact absurd hz hmem
    · rw [if_neg hz]
      constructor
      · intro _
        exact hz
      · intro _
        exact List.mem_append_left _ holdmem
  · show ((Function.update
        (Function.update s.heap v.owner ((s.heap v.owner).decrement_vehicle_count)) nw
        (((Function.update s.heap v.owner
            ((s.heap v.owner).decrement_vehicle_count)) nw).increment_vehicle_count)) nw).vehicle_count
        = (s.heap nw).vehicle_count + 1
    rw [cnt_inc_same, cnt_update_noteq _ _ _ _ hnwold]

/-- C5, witness: a successful transfer of plate `abc0` to the second
person in the demo state. -/
theorem c5_witness :
    ∃ s2, (stateOf demoTrace).update_vehicle_owner "abc0" 1 = some (1, s2) ∧
      s2.vcnt (Vehicle.mk "abc0" "20221122" 0).owner
        = (stateOf demoTrace).vcnt (Vehicle.mk "abc0" "20221122" 0).owner - 1 ∧
      ((Vehicle.mk "abc0" "20221122" 0).owner ∈ s2.owners ↔
        s2.vcnt (Vehicle.mk "abc0" "20221122" 0).owner ≠ 0) ∧
      (∃ m1 m2, (stateOf demoTrace).vehicles = m1 ++ Vehicle.mk "abc0" "20221122" 0 :: m2 ∧
        s2.vehicles = m1 ++ { Vehicle.mk "abc0" "20221122" 0 with owner := 1 } :: m2) ∧
      s2.owners = ((if (stateOf demoTrace).vcnt (Vehicle.mk "abc0" "20221122" 0).owner - 1 = 0
                    then (stateOf demoTrace).owners.erase (Vehicle.mk "abc0" "20221122" 0).owner
                    else (stateOf demoTrace).owners)
                   ++ (if 1 ∈ (stateOf demoTrace).owners then [] else [1])) ∧
      s2.vcnt 1 = (stateOf demoTrace).vcnt 1 + 1 :=
  c5_update_success_of_canonical (stateOf demoTrace) "abc0" 1 ⟨"abc0", "20221122", 0⟩
    creach_demo rfl (by decide) (by decide) (by decide)

/-- C7, amended: in a canonically reached state, `delete_vehicle` returns
`1` exactly when the plate is present: when absent it returns `0` with
the state unchanged; when present it removes that vehicle, decrements its
owner object's count, and removes the owner from `owners` exactly when
the count reaches zero. -/
theorem c7_delete_of_canonical (s : Register) (pl : String) (h : CReach s) :
    (s.find_vehicle_by_plate pl = none → s.delete_vehicle pl = some (0, s)) ∧
    (∀ v, s.find_vehicle_by_plate pl = some v →
      ∃ s2, s.delete_vehicle pl = some (1, s2) ∧
        (∃ m1 m2, s.vehicles = m1 ++ v :: m2 ∧ s2.vehicles = m1 ++ m2) ∧
        s2.vcnt v.owner = s.vcnt v.owner - 1 ∧
        (v.owner ∈ s2.owners ↔ s2.vcnt v.owner ≠ 0) ∧
        s2.owners = (if s.vcnt v.owner - 1 = 0
                     then s.owners.erase v.owner else s.owners)) := by
  have hg := creach_good h
  constructor
  · intro hfind
    simp [Register.delete_vehicle, hfind]
  · intro v hfind
    have hfind2 : s.vehicles.find? (fun w => w.registration_plate == pl) = some v := hfind
    obtain ⟨l1, l2, hsplit, hl1, hv⟩ := find?_decomp hfind2
    have hvmem : v ∈ s.vehicles := List.mem_of_find?_eq_some hfind2
    have holdmem : v.owner ∈ s.owners := hg.cover v hvmem
    have hpos : 0 < (s.heap v.owner).vehicle_count := by
      rw [hg.counts v.owner]
      have hmf : v ∈ s.vehicles.filter (fun w => w.owner == v.owner) :=
        List.mem_filter.mpr ⟨hvmem, by simp⟩
      have hlen : 0 < (s.vehicles.filter (fun w => w.owner == v.owner)).length :=
        List.length_pos.mpr (List.ne_nil_of_mem hmf)
      simp only [refCount]
      exact_mod_cast hlen
    have hc2 : ((Function.update s.heap v.owner
        ((s.heap v.owner).decrement_vehicle_count)) v.owner).vehicle_count
        = (s.heap v.owner).vehicle_count - 1 := cnt_dec_same s.heap v.owner hpos
    refine ⟨_, delete_ok s pl l1 l2 v hg hsplit hl1 hv, ⟨l1, l2, hsplit, rfl⟩, hc2, ?_, rfl⟩
    show v.owner ∈ (if (s.heap v.owner).vehicle_count - 1 = 0
        then s.owners.erase v.owner else s.owners) ↔
      ((Function.update s.heap v.owner
        ((s.heap v.owner).decrement_vehicle_count)) v.owner).vehicle_count ≠ 0
    rw [hc2]
    by_cases hz : (s.heap v.owner).vehicle_count - 1 = 0
    · rw [if_pos hz]
      constructor
      · intro hmem
        exact absurd ((hg.onodup.mem_erase_iff.mp hmem).1 rfl) (by simp)
      · intro hmem
        exact absurd hz hmem
    · rw [if_neg hz]
      constructor
      · intro _
        exact hz
      · intro _
        exact holdmem

/-- C7, witness: deleting plate `abc0` from the demo state. -/
theorem c7_witness :
    ((stateOf demoTrace).find_vehicle_by_plate "abc0" = none →
      (stateOf demoTrace).delete_vehicle "abc0" = some (0, stateOf demoTrace)) ∧
    (∀ v, (stateOf demoTrace).find_vehicle_by_plate "abc0" = some v →
      ∃ s2, (stateOf demoTrace).delete_vehicle "abc0" = some (1, s2) ∧
        (∃ m1 m2, (stateOf demoTrace).vehicles = m1 ++ v :: m2 ∧ s2.vehicles = m1 ++ m2) ∧
        s2.vcnt v.owner = (stateOf demoTrace).vcnt v.owner - 1 ∧
        (v.owner ∈ s2.owners ↔ s2.vcnt v.owner ≠ 0) ∧
        s2.owners = (if (stateOf demoTrace).vcnt v.owner - 1 = 0
                     then (stateOf demoTrace).owners.erase v.owner
                     else (stateOf demoTrace).owners)) :=
  c7_delete_of_canonical (stateOf demoTrace) "abc0" creach_demo

/-- C9, amended: in a canonically reached state, a person with no equal
entry in `list_owners` owns no vehicle, so `list_vehicle_by_owner`
returns the empty list. -/
theorem c9_unregistered_owner_empty (s : Register) (p : PersonData) (h : CReach s)
    (hp : ∀ r ∈ s.list_owners, (s.heap r).data ≠ p) :
    s.list_vehicle_by_owner p = [] := by
  have hg := creach_good h
  unfold Register.list_vehicle_by_owner
  rw [List.filter_eq_nil_iff]
  intro w hw hb
  exact hp w.owner (hg.cover w hw) (PersonData.eqb_iff.mp hb)

/-- C9, witness: an unregistered person gets an empty listing in the demo
state. -/
theorem c9_witness :
    (stateOf demoTrace).list_vehicle_by_owner ⟨"Nobody", "Here", 1⟩ = [] :=
  c9_unregistered_owner_empty (stateOf demoTrace) ⟨"Nobody", "Here", 1⟩ creach_demo (by decide)
